import Mathlib

/-!
# kube-bot command interpretation engine: shallow embedding

The repository's `chat` and `defs` Go packages implement a chat-message
command interpretation engine (tokenizer, query parser, argument binder,
dispatcher, registry, loader).  Those packages are not present in the
source tree we have; only their caller `bot/bot.go` is.  Following the
design document, the engine is modelled here from the spec's words; the
parts taken from `bot/bot.go` (`NewBot`, `handleMessage`) are embedded
from that source.

Tokens and strings are modelled as `List Char`; `String` appears only at
the outer boundary (`tokenize`, `parse` take a `String` and work on its
`data`).
-/

set_option autoImplicit false

namespace KubeBot

/-- Parse-time and registration-time error taxonomy.
Modelled from the spec: §7 error handling design. -/
inductive ParseError where
  | EmptyMessage
  | UnknownCommand
  | UnknownSubcommand
  | MissingArgument
  | InvalidQuery
  | DuplicateKeyword
  | UnexpectedArgument
deriving DecidableEq, Repr

/-- Registration-time error.  Modelled from the spec: §7,
`DuplicateCommand (registration-time, fatal, aborts startup)`. -/
inductive RegError where
  | DuplicateCommand
deriving DecidableEq, Repr

/-! ## Tokenizer -/

/-- Accumulator-passing worker for `tokenize`: `acc` holds the reversed
characters of the word currently being read. -/
def tokAux : List Char → List Char → List (List Char)
  | [], acc => if acc = [] then [] else [acc.reverse]
  | c :: cs, acc =>
    if c.isWhitespace then
      if acc = [] then tokAux cs [] else acc.reverse :: tokAux cs []
    else
      tokAux cs (c :: acc)

/-- Modelled from the spec: `tokenize(text)` → ordered sequence of tokens
obtained by splitting on runs of whitespace; leading/trailing whitespace
produces no empty tokens; an entirely blank input yields an empty
sequence.  (The Go `chat` tokenizer is not in the source tree.) -/
def tokenize (cs : List Char) : List (List Char) :=
  tokAux cs []

/-! ## Query parser -/

/-- A parsed `type/name[/revision]` resource locator.
Modelled from the spec: §3 data model, `Query`. -/
structure Query where
  type : List Char
  name : List Char
  revision : Option (List Char)
deriving DecidableEq, Repr

/-- Split a character list on every occurrence of `sep` (single
separators, not runs); always returns at least one part. -/
def splitOnChar (sep : Char) : List Char → List (List Char)
  | [] => [[]]
  | c :: cs =>
    match splitOnChar sep cs with
    | [] => [[]]
    | p :: ps => if c = sep then [] :: p :: ps else (c :: p) :: ps

/-- Modelled from the spec: `parseQuery(token)` → split on `/`.  Exactly 2
parts: `{type, name}`, revision absent.  Exactly 3 parts:
`{type, name, revision}`.  Any other part count, or an empty
`type`/`name`, fails with InvalidQuery.  Empty `revision` is also
InvalidQuery.  (The Go query parser is not in the source tree.) -/
def parseQuery (token : List Char) : Except ParseError Query :=
  match splitOnChar '/' token with
  | [t, n] =>
    if t = [] ∨ n = [] then .error .InvalidQuery
    else .ok ⟨t, n, none⟩
  | [t, n, r] =>
    if t = [] ∨ n = [] ∨ r = [] then .error .InvalidQuery
    else .ok ⟨t, n, some r⟩
  | _ => .error .InvalidQuery

/-- The canonical token of a query: `type/name[/revision]`. -/
def renderQ (q : Query) : List Char :=
  q.type ++ '/' :: q.name ++
    (match q.revision with | none => [] | some r => '/' :: r)

/-! ## Data model -/

/-- Kinds of argument specs.  Modelled from the spec: §3, `kind` ∈
{positional-required, positional-optional-validated, keyword-enum-group,
list-of-tokens, query}.  A list-of-tokens spec's token predicate is
"starts with `mark`" (`mark = "#"` for channels, empty for barewords);
binding strips the mark. -/
inductive ArgKind where
  | posRequired
  | posOptValidated (valid : List Char → Bool) (dflt : List Char)
  | keywordEnum (kws : List (List Char × List Char)) (dflt : List Char)
  | listTokens (mark : List Char)
  | query

/-- Modelled from the spec: §3, ArgumentSpec. -/
structure ArgumentSpec where
  name : List Char
  kind : ArgKind

/-- Modelled from the spec: §3, CommandDefinition: `name`, `subcommands`
(ordered set of literal strings, may be empty), `argumentSpecs` (ordered,
order is the binding order). -/
structure CommandDefinition where
  name : List Char
  subcommands : List (List Char)
  argumentSpecs : List ArgumentSpec

/-- A bound argument value: scalar string, list of strings, or Query.
Modelled from the spec: §3, CommandRequest `augments`. -/
inductive Value where
  | str : List Char → Value
  | list : List (List Char) → Value
  | query : Query → Value
deriving DecidableEq, Repr

/-- Modelled from the spec: §3, CommandRequest: resolved command
(by its canonical registered name), resolved subcommand (optional),
`augments` mapping argument names to bound values (kept in the
definition's spec order). -/
structure CommandRequest where
  command : List Char
  subcommand : Option (List Char)
  augments : List (List Char × Value)
deriving DecidableEq, Repr

/-- Modelled from the spec: §3, Registry: mapping from command name to
CommandDefinition, represented as the list of registered definitions. -/
def Registry := List CommandDefinition

/-! ## Argument binder -/

/-- Case-normalisation used for command and subcommand lookup. -/
def lower (cs : List Char) : List Char :=
  cs.map Char.toLower

/-- The keywords reserved by a definition's keyword-enum-group specs. -/
def reservedOf (specs : List ArgumentSpec) : List (List Char) :=
  specs.flatMap fun s =>
    match s.kind with
    | .keywordEnum kws _ => kws.map Prod.fst
    | _ => []

/-- Modelled from the spec: §4.4 *keyword-enum-group*: scans forward
through the unconsumed tokens; the first token matching one of the
group's literal keywords is consumed and its canonical value recorded;
if a second token later in the stream also matches a keyword from the
same group, this fails with DuplicateKeyword; if none match, the group's
default canonical value is recorded.  Returns the recorded value and the
remaining (unconsumed) tokens. -/
def bindKeywordEnum (kws : List (List Char × List Char)) (dflt : List Char) :
    List (List Char) → Except ParseError (List Char × List (List Char))
  | [] => .ok (dflt, [])
  | t :: ts =>
    match kws.lookup t with
    | some v =>
      if ts.any (fun u => (kws.lookup u).isSome) then .error .DuplicateKeyword
      else .ok (v, ts)
    | none =>
      match bindKeywordEnum kws dflt ts with
      | .ok (v, rest) => .ok (v, t :: rest)
      | .error e => .error e

/-- Modelled from the spec: §4.4 *list-of-tokens*: consumes every
contiguous unconsumed token whose value satisfies the spec's predicate
(here: starts with `mark`), stopping at the first token that fails the
predicate or that matches a keyword reserved by any other spec in the
same definition.  Binding strips the mark.  Returns the bound values and
the remaining tokens. -/
def bindListTokens (mark : List Char) (reserved : List (List Char)) :
    List (List Char) → List (List Char) × List (List Char)
  | [] => ([], [])
  | t :: ts =>
    if mark.isPrefixOf t ∧ t ∉ reserved then
      let (xs, rest) := bindListTokens mark reserved ts
      (t.drop mark.length :: xs, rest)
    else
      ([], t :: ts)

/-- Modelled from the spec: §4.4 Argument Binder: processes
`argumentSpecs` in declared order against the remaining token stream;
after all specs are processed, any remaining unconsumed tokens produce
UnexpectedArgument; on success every spec is bound, either from input or
from its default. -/
def bindSpecs (reserved : List (List Char)) :
    List ArgumentSpec → List (List Char) →
    Except ParseError (List (List Char × Value))
  | [], toks => if toks = [] then .ok [] else .error .UnexpectedArgument
  | spec :: specs, toks =>
    match spec.kind with
    | .posRequired =>
      match toks with
      | [] => .error .MissingArgument
      | t :: ts =>
        (bindSpecs reserved specs ts).map fun m => (spec.name, .str t) :: m
    | .posOptValidated valid dflt =>
      match toks with
      | [] =>
        (bindSpecs reserved specs []).map fun m => (spec.name, .str dflt) :: m
      | t :: ts =>
        if valid t then
          (bindSpecs reserved specs ts).map fun m => (spec.name, .str t) :: m
        else
          (bindSpecs reserved specs (t :: ts)).map fun m =>
            (spec.name, .str dflt) :: m
    | .keywordEnum kws dflt =>
      match bindKeywordEnum kws dflt toks with
      | .error e => .error e
      | .ok (v, rest) =>
        (bindSpecs reserved specs rest).map fun m => (spec.name, .str v) :: m
    | .listTokens mark =>
      let (xs, rest) := bindListTokens mark reserved toks
      (bindSpecs reserved specs rest).map fun m => (spec.name, .list xs) :: m
    | .query =>
      match toks with
      | [] => .error .MissingArgument
      | t :: ts =>
        match parseQuery t with
        | .error e => .error e
        | .ok q =>
          (bindSpecs reserved specs ts).map fun m => (spec.name, .query q) :: m

/-! ## Dispatcher -/

/-- Modelled from the spec: §4.5 Dispatcher `parse(rawText)`: tokenize;
fail EmptyMessage if no tokens.  The first token is matched
case-insensitively against Registry command names; fail UnknownCommand
if no match.  If the resolved definition declares a non-empty subcommand
set, the next token must match one of them case-insensitively; fail
UnknownSubcommand otherwise.  The remaining tokens go to the Argument
Binder.  The first error anywhere is returned immediately. -/
def parse (reg : List CommandDefinition) (rawText : String) :
    Except ParseError CommandRequest :=
  match tokenize rawText.data with
  | [] => .error .EmptyMessage
  | cmd :: rest =>
    match reg.find? (fun d => lower d.name = lower cmd) with
    | none => .error .UnknownCommand
    | some d =>
      if d.subcommands = [] then
        (bindSpecs (reservedOf d.argumentSpecs) d.argumentSpecs rest).map
          fun m => ⟨d.name, none, m⟩
      else
        match rest with
        | [] => .error .UnknownSubcommand
        | sub :: rest2 =>
          match d.subcommands.find? (fun s => lower s = lower sub) with
          | none => .error .UnknownSubcommand
          | some s =>
            (bindSpecs (reservedOf d.argumentSpecs) d.argumentSpecs rest2).map
              fun m => ⟨d.name, some s, m⟩

/-! ## Loader and built-in command definitions -/

/-- An identity keyword mapping (literal keyword ↦ itself as canonical
value), as used by all built-in keyword groups. -/
def kw (s : String) : List Char × List Char :=
  (s.data, s.data)

/-- Validation predicate for the `lines` argument.  Modelled from the
spec: "parses as a positive integer". -/
def isPosInt (t : List Char) : Bool :=
  !t.isEmpty && t.all Char.isDigit && t.any (· ≠ '0')

/-- The `<query>` positional argument shared by several commands. -/
def queryArg : ArgumentSpec :=
  ⟨"query".data, .query⟩

/-- Modelled from the spec: `get <query>`. -/
def getDef : CommandDefinition :=
  ⟨"get".data, [], [queryArg]⟩

/-- Modelled from the spec: `describe <query>`. -/
def describeDef : CommandDefinition :=
  ⟨"describe".data, [], [queryArg]⟩

/-- Modelled from the spec:
`rollout {status|pause|resume|history|undo} <query>`. -/
def rolloutDef : CommandDefinition :=
  ⟨"rollout".data,
   ["status".data, "pause".data, "resume".data, "history".data, "undo".data],
   [queryArg]⟩

/-- Modelled from the spec: `scale <query> <replicas:int>`. -/
def scaleDef : CommandDefinition :=
  ⟨"scale".data, [], [queryArg, ⟨"replicas".data, .posRequired⟩]⟩

/-- Modelled from the spec:
`logs <query> [top|bottom] [lines:int, default 25, default direction bottom]`. -/
def logsDef : CommandDefinition :=
  ⟨"logs".data, [],
   [queryArg,
    ⟨"direction".data, .keywordEnum [kw "top", kw "bottom"] "bottom".data⟩,
    ⟨"lines".data, .posOptValidated isPosInt "25".data⟩]⟩

/-- Modelled from the spec: `version`. -/
def versionDef : CommandDefinition :=
  ⟨"version".data, [], []⟩

/-- Modelled from the spec: `track <repo> [#channel...]
[anyones|mine|none, default mine] [all|failure|success, default all]
[branch...]`. -/
def trackDef : CommandDefinition :=
  ⟨"track".data, [],
   [⟨"repo".data, .posRequired⟩,
    ⟨"channels".data, .listTokens "#".data⟩,
    ⟨"author_filter".data,
      .keywordEnum [kw "anyones", kw "mine", kw "none"] "mine".data⟩,
    ⟨"result_filter".data,
      .keywordEnum [kw "all", kw "failure", kw "success"] "all".data⟩,
    ⟨"branches".data, .listTokens []⟩]⟩

/-- Modelled from the spec: `config [key] [value]`. -/
def configDef : CommandDefinition :=
  ⟨"config".data, [],
   [⟨"key".data, .posOptValidated (fun _ => true) []⟩,
    ⟨"value".data, .posOptValidated (fun _ => true) []⟩]⟩

/-- Modelled from the spec: `help`. -/
def helpDef : CommandDefinition :=
  ⟨"help".data, [], []⟩

/-- The built-in command definitions in registration order.
Modelled from the spec: §4.6 Loader. -/
def builtinDefs : List CommandDefinition :=
  [getDef, describeDef, rolloutDef, scaleDef, logsDef, versionDef,
   trackDef, configDef, helpDef]

/-- Modelled from the spec: §4.1 `register(def)` fails with
DuplicateCommand if `def.name` is already present (case-insensitive);
otherwise stores it. -/
def register (reg : List CommandDefinition) (d : CommandDefinition) :
    Except RegError (List CommandDefinition) :=
  if reg.any (fun e => lower e.name = lower d.name) then
    .error .DuplicateCommand
  else
    .ok (reg ++ [d])

/-- Modelled from the spec: §4.6 Loader: constructs a fresh Registry and
registers each built-in CommandDefinition. -/
def loadAll : Except RegError (List CommandDefinition) :=
  builtinDefs.foldlM register []

/-- The registry the loader produces on success. -/
def builtins : List CommandDefinition :=
  builtinDefs

/-! ## Bot (embedded from src/bot/bot.go) -/

/-- The slice of the Go `Bot` struct this model covers: the loaded
command registry. -/
structure Bot where
  registry : List CommandDefinition

/-- Embedded from `src/bot/bot.go` `NewBot` (registry portion, lines
77–82), parametric in the loader's outcome: on a loader error NewBot
returns the error and no Bot; on success the Bot holds the loaded
registry. -/
def newBotWith (loadResult : Except RegError (List CommandDefinition)) :
    Except RegError Bot :=
  match loadResult with
  | .error e => .error e
  | .ok reg => .ok ⟨reg⟩

/-- `NewBot` with the actual loader. -/
def newBot : Except RegError Bot :=
  newBotWith loadAll

/-- A chat reply sent via `SendTxt` (text and target channel). -/
structure Reply where
  text : List Char
  channel : List Char
deriving DecidableEq, Repr

/-- Modelled from the spec: the user-facing text of a parse error (the
Go error strings of the missing `chat` package are unknown; each kind is
rendered by a fixed descriptive message). -/
def errText : ParseError → List Char
  | .EmptyMessage => "empty message".data
  | .UnknownCommand => "unknown command".data
  | .UnknownSubcommand => "unknown subcommand".data
  | .MissingArgument => "missing argument".data
  | .InvalidQuery => "invalid query".data
  | .DuplicateKeyword => "duplicate keyword".data
  | .UnexpectedArgument => "unexpected argument".data

/-- Display form of a bound value, used in the argument listing. -/
def showValue : Value → List Char
  | .str s => s
  | .list xs => xs.foldl (fun acc x => acc ++ ' ' :: x) []
  | .query q =>
    q.type ++ '/' :: q.name ++
      (match q.revision with | none => [] | some r => '/' :: r)

/-- Embedded from `src/bot/bot.go` `handleMessage` (lines 173–179): the
success reply lists the bound arguments. -/
def successText (req : CommandRequest) : List Char :=
  "I'm still learning, here are your arguments:".data ++
    req.augments.flatMap fun p => "\n- ".data ++ p.1 ++ '=' :: showValue p.2

/-- Embedded from `src/bot/bot.go` `handleMessage` (lines 166–188): parse
the message text; on success send one reply listing the arguments, on
failure send one reply carrying the error text; return nil either way.
Result: (replies sent via SendTxt, returned error). -/
def handleMessage (reg : List CommandDefinition) (text channel : String) :
    List Reply × Option (List Char) :=
  match parse reg text with
  | .ok req => ([⟨successText req, channel.data⟩], none)
  | .error e =>
    ([⟨"Whoops I had a brain fart: ".data ++ errText e, channel.data⟩], none)

/-! ## Canonical textual form -/

/-- Modelled from the spec: §8, "the canonical textual form of a produced
CommandRequest's augments": each bound value rendered back to the tokens
that express it (a list value re-wearing its spec's mark, a query re-joined
with `/`, a scalar as itself, an empty scalar as no token). -/
def renderValue (k : ArgKind) (v : Value) : List (List Char) :=
  match k, v with
  | .listTokens mark, .list xs => xs.map (fun x => mark ++ x)
  | _, .list xs => xs
  | _, .str s => if s = [] then [] else [s]
  | _, .query q => [renderQ q]

/-- Render the augments of a request against its definition's specs, in
binding order. -/
def renderAugments : List ArgumentSpec → List (List Char × Value) →
    List (List Char)
  | s :: specs, p :: ps => renderValue s.kind p.2 ++ renderAugments specs ps
  | _, _ => []

/-- Join tokens with single spaces. -/
def joinTokens : List Char → List (List Char) → List Char
  | acc, [] => acc
  | acc, t :: ts => joinTokens (acc ++ ' ' :: t) ts

/-- The canonical textual form of a CommandRequest: command name,
subcommand if any, then the canonical form of the augments. -/
def renderReq (reg : List CommandDefinition) (req : CommandRequest) :
    String :=
  match reg.find? (fun d => d.name = req.command) with
  | none => ""
  | some d =>
    String.mk (joinTokens req.command
      ((match req.subcommand with | none => [] | some s => [s]) ++
        renderAugments d.argumentSpecs req.augments))

/-- Join parts with the separator: inverse of `splitOnChar`. -/
def joinSep (sep : Char) : List (List Char) → List Char
  | [] => []
  | [p] => p
  | p :: ps => p ++ sep :: joinSep sep ps

/-- A well-formed token: non-empty and whitespace-free (every token the
tokenizer produces satisfies this). -/
def GoodTok (t : List Char) : Prop :=
  t ≠ [] ∧ ∀ c ∈ t, c.isWhitespace = false

/-- The constraint a successful binder run places on the value bound for
one spec, relative to the original token stream `toks` and the
definition's reserved keywords. -/
def SpecBound (reserved toks : List (List Char)) :
    ArgKind → Value → Prop
  | .posRequired, .str t => t ∈ toks
  | .posOptValidated valid dflt, .str s =>
      (s ∈ toks ∧ valid s = true) ∨ s = dflt
  | .keywordEnum kws dflt, .str s => s ∈ kws.map Prod.snd ∨ s = dflt
  | .listTokens mark, .list xs =>
      ∀ x ∈ xs, mark ++ x ∈ toks ∧ mark ++ x ∉ reserved
  | .query, .query q => ∃ t ∈ toks, parseQuery t = .ok q ∧ renderQ q = t
  | _, _ => False

/-! ## Tokenizer lemmas -/

theorem tokAux_good : ∀ (cs acc : List Char),
    (∀ c ∈ acc, c.isWhitespace = false) →
    ∀ t ∈ tokAux cs acc, t ≠ [] ∧ ∀ c ∈ t, c.isWhitespace = false := by
  intro cs
  induction cs with
  | nil =>
    intro acc hacc t ht
    unfold tokAux at ht
    split at ht
    · simp at ht
    · rename_i hne
      simp only [List.mem_singleton] at ht
      subst ht
      refine ⟨by simpa using hne, fun c hc => hacc c (List.mem_reverse.mp hc)⟩
  | cons c cs ih =>
    intro acc hacc t ht
    unfold tokAux at ht
    by_cases hws : c.isWhitespace
    · simp only [hws, if_true] at ht
      split at ht
      · exact ih [] (by simp) t ht
      · rename_i hne
        rcases List.mem_cons.mp ht with h | h
        · subst h
          refine ⟨by simpa using hne, fun d hd => hacc d (List.mem_reverse.mp hd)⟩
        · exact ih [] (by simp) t h
    · simp only [hws, if_false] at ht
      refine ih (c :: acc) ?_ t ht
      intro d hd
      rcases List.mem_cons.mp hd with h | h
      · subst h; simpa using hws
      · exact hacc d h

theorem tokAux_flatten : ∀ (cs acc : List Char),
    (tokAux cs acc).flatten =
      acc.reverse ++ cs.filter (fun c => !c.isWhitespace) := by
  intro cs
  induction cs with
  | nil =>
    intro acc
    unfold tokAux
    split
    · rename_i h; subst h; simp
    · simp
  | cons c cs ih =>
    intro acc
    unfold tokAux
    by_cases hws : c.isWhitespace
    · simp only [hws, if_true]
      split
      · rename_i h
        subst h
        simpa [hws] using ih []
      · simp [List.flatten_cons, ih [], hws]
    · rw [if_neg (by simpa using hws)]
      rw [ih (c :: acc)]
      simp [hws]

theorem tokAux_allws : ∀ (cs : List Char),
    (∀ c ∈ cs, c.isWhitespace = true) → tokAux cs [] = [] := by
  intro cs
  induction cs with
  | nil => intro _; rfl
  | cons c cs ih =>
    intro h
    unfold tokAux
    simp only [h c (by simp), if_true]
    exact ih fun d hd => h d (by simp [hd])

/-- Claim C5: `tokenize` splits on runs of whitespace: every produced
token is non-empty and whitespace-free, the tokens flatten back to the
non-whitespace characters of the input in order, an input is entirely
blank (or empty) exactly when the token sequence is empty, and an empty
token sequence makes `parse` fail with EmptyMessage. -/
theorem c5_tokenize_spec (text : String) :
    (∀ t ∈ tokenize text.data, t ≠ [] ∧ ∀ c ∈ t, c.isWhitespace = false) ∧
    (tokenize text.data).flatten = text.data.filter (fun c => !c.isWhitespace) ∧
    (tokenize text.data = [] ↔ ∀ c ∈ text.data, c.isWhitespace = true) ∧
    (tokenize text.data = [] →
      ∀ reg : List CommandDefinition, parse reg text = .error .EmptyMessage) := by
  refine ⟨tokAux_good text.data [] (by simp), tokAux_flatten text.data [], ?_, ?_⟩
  · constructor
    · intro h c hc
      have hfl := tokAux_flatten text.data []
      rw [tokenize] at h
      rw [h] at hfl
      simp only [List.flatten_nil, List.nil_append, List.reverse_nil] at hfl
      have := List.filter_eq_nil_iff.mp hfl.symm c hc
      simpa using this
    · intro h
      exact tokAux_allws text.data h
  · intro h reg
    unfold parse
    rw [h]

/-- Witness for C5 at concrete inputs: a mixed input's tokens are
non-empty, and an all-whitespace input parses to EmptyMessage. -/
theorem c5_tokenize_spec_witness :
    ("ab".data ≠ [] ∧ ∀ c ∈ "ab".data, c.isWhitespace = false) ∧
    parse builtins "  \t " = .error .EmptyMessage :=
  ⟨(c5_tokenize_spec " ab ").1 "ab".data (by decide),
   (c5_tokenize_spec "  \t ").2.2.2 (by decide) builtins⟩

/-! ## Query parser: claim C1 -/

/-- Claim C1: `parseQuery` splits its token on `/` and succeeds iff the
split has exactly 2 or exactly 3 parts, all non-empty; 2 parts yield
`{type, name}` with no revision, 3 parts yield `{type, name, revision}`,
and every failure is InvalidQuery. -/
theorem c1_parseQuery_spec (token : List Char) :
    ((parseQuery token).isOk = true ↔
      (((splitOnChar '/' token).length = 2 ∨
        (splitOnChar '/' token).length = 3) ∧
        ∀ p ∈ splitOnChar '/' token, p ≠ [])) ∧
    (∀ t n, splitOnChar '/' token = [t, n] → t ≠ [] → n ≠ [] →
      parseQuery token = .ok ⟨t, n, none⟩) ∧
    (∀ t n r, splitOnChar '/' token = [t, n, r] → t ≠ [] → n ≠ [] → r ≠ [] →
      parseQuery token = .ok ⟨t, n, some r⟩) ∧
    ((parseQuery token).isOk = false →
      parseQuery token = .error .InvalidQuery) := by
  rcases h : splitOnChar '/' token with _ | ⟨a, _ | ⟨b, _ | ⟨c, _ | ⟨d, l⟩⟩⟩⟩
  · have hp : parseQuery token = .error .InvalidQuery := by
      unfold parseQuery; rw [h]
    refine ⟨?_, ?_, ?_, fun _ => hp⟩
    · rw [hp]; simp [Except.isOk, Except.toBool]
    · intro t n ht; simp at ht
    · intro t n r ht; simp at ht
  · have hp : parseQuery token = .error .InvalidQuery := by
      unfold parseQuery; rw [h]
    refine ⟨?_, ?_, ?_, fun _ => hp⟩
    · rw [hp]; simp [Except.isOk, Except.toBool]
    · intro t n ht; simp at ht
    · intro t n r ht; simp at ht
  · have hp : parseQuery token =
        if a = [] ∨ b = [] then .error .InvalidQuery else .ok ⟨a, b, none⟩ := by
      unfold parseQuery; rw [h]
    by_cases hab : a = [] ∨ b = []
    · rw [if_pos hab] at hp
      refine ⟨?_, ?_, ?_, fun _ => hp⟩
      · rw [hp]
        simp only [Except.isOk, Except.toBool]
        constructor
        · intro hfalse; cases hfalse
        · rintro ⟨-, hne⟩
          rcases hab with hab | hab
          · exact absurd hab (hne a (by simp))
          · exact absurd hab (hne b (by simp))
      · intro t n ht ht1 ht2
        injection ht with e1 ht
        injection ht with e2 _
        subst e1; subst e2
        rcases hab with hab | hab
        · exact absurd hab ht1
        · exact absurd hab ht2
      · intro t n r ht; simp at ht
    · rw [if_neg hab] at hp
      push_neg at hab
      refine ⟨?_, ?_, ?_, ?_⟩
      · rw [hp]
        simp only [Except.isOk, Except.toBool]
        constructor
        · intro _
          refine ⟨Or.inl rfl, ?_⟩
          intro p hmem
          rcases List.mem_cons.mp hmem with h1 | h1
          · subst h1; exact hab.1
          · rcases List.mem_cons.mp h1 with h2 | h2
            · subst h2; exact hab.2
            · simp at h2
        · intro _; trivial
      · intro t n ht _ _
        injection ht with e1 ht
        injection ht with e2 _
        subst e1; subst e2
        exact hp
      · intro t n r ht; simp at ht
      · intro hbad; rw [hp] at hbad; simp [Except.isOk, Except.toBool] at hbad
  · have hp : parseQuery token =
        if a = [] ∨ b = [] ∨ c = [] then .error .InvalidQuery
        else .ok ⟨a, b, some c⟩ := by
      unfold parseQuery; rw [h]
    by_cases habc : a = [] ∨ b = [] ∨ c = []
    · rw [if_pos habc] at hp
      refine ⟨?_, ?_, ?_, fun _ => hp⟩
      · rw [hp]
        simp only [Except.isOk, Except.toBool]
        constructor
        · intro hfalse; cases hfalse
        · rintro ⟨-, hne⟩
          rcases habc with hx | hx | hx
          · exact absurd hx (hne a (by simp))
          · exact absurd hx (hne b (by simp))
          · exact absurd hx (hne c (by simp))
      · intro t n ht; simp at ht
      · intro t n r ht ht1 ht2 ht3
        injection ht with e1 ht
        injection ht with e2 ht
        injection ht with e3 _
        subst e1; subst e2; subst e3
        rcases habc with hx | hx | hx
        · exact absurd hx ht1
        · exact absurd hx ht2
        · exact absurd hx ht3
    · rw [if_neg habc] at hp
      push_neg at habc
      refine ⟨?_, ?_, ?_, ?_⟩
      · rw [hp]
        simp only [Except.isOk, Except.toBool]
        constructor
        · intro _
          refine ⟨Or.inr rfl, ?_⟩
          intro p hmem
          rcases List.mem_cons.mp hmem with h1 | h1
          · subst h1; exact habc.1
          · rcases List.mem_cons.mp h1 with h2 | h2
            · subst h2; exact habc.2.1
            · rcases List.mem_cons.mp h2 with h3 | h3
              · subst h3; exact habc.2.2
              · simp at h3
        · intro _; trivial
      · intro t n ht; simp at ht
      · intro t n r ht _ _ _
        injection ht with e1 ht
        injection ht with e2 ht
        injection ht with e3 _
        subst e1; subst e2; subst e3
        exact hp
      · intro hbad; rw [hp] at hbad; simp [Except.isOk, Except.toBool] at hbad
  · have hp : parseQuery token = .error .InvalidQuery := by
      unfold parseQuery; rw [h]
    refine ⟨?_, ?_, ?_, fun _ => hp⟩
    · rw [hp]
      simp only [Except.isOk, Except.toBool]
      constructor
      · intro hfalse; cases hfalse
      · rintro ⟨hlen, -⟩
        simp only [List.length_cons] at hlen
        omega
    · intro t n ht; simp at ht
    · intro t n r ht; simp at ht

/-- Witness for C1 at concrete inputs: `pods/myapp` parses with no
revision, `deployment/myapp/3` parses with revision 3, and `podsmyapp`
(1 part) and `pods/` (empty name) fail with InvalidQuery. -/
theorem c1_parseQuery_spec_witness :
    parseQuery "pods/myapp".data = .ok ⟨"pods".data, "myapp".data, none⟩ ∧
    parseQuery "deployment/myapp/3".data =
      .ok ⟨"deployment".data, "myapp".data, some "3".data⟩ ∧
    parseQuery "podsmyapp".data = .error .InvalidQuery ∧
    parseQuery "pods/".data = .error .InvalidQuery :=
  ⟨(c1_parseQuery_spec "pods/myapp".data).2.1 "pods".data "myapp".data
      (by decide) (by decide) (by decide),
   (c1_parseQuery_spec "deployment/myapp/3".data).2.2.1 "deployment".data
      "myapp".data "3".data (by decide) (by decide) (by decide) (by decide),
   (c1_parseQuery_spec "podsmyapp".data).2.2.2 (by decide),
   (c1_parseQuery_spec "pods/".data).2.2.2 (by decide)⟩

/-! ## Keyword-enum-group binder: claim C3 -/

/-- Claim C3: the keyword-enum-group binder consumes the first unconsumed
token matching one of the group's keywords and records its canonical
value; a second matching token anywhere later in the stream fails with
DuplicateKeyword (as `track acme/widgets mine none` does); with no
matching token the default canonical value is recorded. -/
theorem c3_keywordEnum_spec
    (kws : List (List Char × List Char)) (dflt : List Char) :
    (∀ toks : List (List Char), (∀ t ∈ toks, kws.lookup t = none) →
      bindKeywordEnum kws dflt toks = .ok (dflt, toks)) ∧
    (∀ (pre post : List (List Char)) (k v : List Char),
      (∀ t ∈ pre, kws.lookup t = none) → kws.lookup k = some v →
      (∀ t ∈ post, kws.lookup t = none) →
      bindKeywordEnum kws dflt (pre ++ k :: post) = .ok (v, pre ++ post)) ∧
    (∀ (pre post : List (List Char)) (k v : List Char),
      (∀ t ∈ pre, kws.lookup t = none) → kws.lookup k = some v →
      (∃ u ∈ post, (kws.lookup u).isSome = true) →
      bindKeywordEnum kws dflt (pre ++ k :: post) =
        .error .DuplicateKeyword) ∧
    parse builtins "track acme/widgets mine none" =
      .error .DuplicateKeyword := by
  refine ⟨?_, ?_, ?_, rfl⟩
  · intro toks h
    induction toks with
    | nil => rfl
    | cons t ts ih =>
      have ht := h t (by simp)
      have ihh := ih fun u hu => h u (by simp [hu])
      simp only [bindKeywordEnum, ht, ihh]
  · intro pre
    induction pre with
    | nil =>
      intro post k v _ hk hpost
      simp only [List.nil_append, bindKeywordEnum, hk]
      rw [if_neg]
      simp only [List.any_eq_true, not_exists, not_and]
      intro u hu
      simp [hpost u hu]
    | cons t pre ih =>
      intro post k v hpre hk hpost
      have ht := hpre t (by simp)
      have ihh := ih post k v (fun u hu => hpre u (by simp [hu])) hk hpost
      simp only [List.cons_append, bindKeywordEnum, ht, List.append_eq, ihh]
  · intro pre
    induction pre with
    | nil =>
      intro post k v _ hk hdup
      simp only [List.nil_append, bindKeywordEnum, hk]
      rw [if_pos]
      simp only [List.any_eq_true]
      exact hdup
    | cons t pre ih =>
      intro post k v hpre hk hdup
      have ht := hpre t (by simp)
      have ihh := ih post k v (fun u hu => hpre u (by simp [hu])) hk hdup
      simp only [List.cons_append, bindKeywordEnum, ht, List.append_eq, ihh]

/-- Witness for C3 at concrete inputs: in `mine develop` the keyword
`mine` is consumed with `develop` left over, `develop master` alone
yields the default, and `mine none` is a duplicate. -/
theorem c3_keywordEnum_spec_witness :
    bindKeywordEnum [kw "anyones", kw "mine", kw "none"] "mine".data
      ["mine".data, "develop".data] = .ok ("mine".data, ["develop".data]) ∧
    bindKeywordEnum [kw "anyones", kw "mine", kw "none"] "mine".data
      ["develop".data, "master".data] =
      .ok ("mine".data, ["develop".data, "master".data]) ∧
    bindKeywordEnum [kw "anyones", kw "mine", kw "none"] "mine".data
      ["mine".data, "none".data] = .error .DuplicateKeyword ∧
    parse builtins "track acme/widgets mine none" =
      .error .DuplicateKeyword :=
  ⟨(c3_keywordEnum_spec [kw "anyones", kw "mine", kw "none"]
      "mine".data).2.1 [] ["develop".data] "mine".data "mine".data
      (by decide) (by decide) (by decide),
   (c3_keywordEnum_spec [kw "anyones", kw "mine", kw "none"]
      "mine".data).1 ["develop".data, "master".data] (by decide),
   (c3_keywordEnum_spec [kw "anyones", kw "mine", kw "none"]
      "mine".data).2.2.1 [] ["none".data] "mine".data "mine".data
      (by decide) (by decide) ⟨"none".data, by decide⟩,
   (c3_keywordEnum_spec [] []).2.2.2⟩

/-! ## Binder forward analysis -/

theorem exceptMap_ok {ε α β : Type} (f : α → β) (x : Except ε α) (y : β)
    (h : x.map f = .ok y) : ∃ z, x = .ok z ∧ y = f z := by
  cases x with
  | ok a =>
    refine ⟨a, rfl, ?_⟩
    simpa [Except.map] using h.symm
  | error e => simp [Except.map] at h

theorem bindKeywordEnum_rest_mem
    (kws : List (List Char × List Char)) (dflt : List Char) :
    ∀ (toks rest : List (List Char)) (v : List Char),
    bindKeywordEnum kws dflt toks = .ok (v, rest) →
    ∀ t ∈ rest, t ∈ toks := by
  intro toks
  induction toks with
  | nil =>
    intro rest v h t ht
    simp only [bindKeywordEnum] at h
    injection h with h
    injection h with _ h2
    subst h2
    simp at ht
  | cons u us ih =>
    intro rest v h t ht
    rcases hl : kws.lookup u with _ | w
    · simp only [bindKeywordEnum, hl] at h
      rcases hr : bindKeywordEnum kws dflt us with e | ⟨v', rest'⟩
      · simp only [hr] at h
        exact Except.noConfusion h
      · simp only [hr] at h
        injection h with h
        injection h with h1 h2
        subst h2
        rcases List.mem_cons.mp ht with h | h
        · simp [h]
        · exact List.mem_cons_of_mem u (ih rest' v' hr t h)
    · simp only [bindKeywordEnum, hl] at h
      split at h
      · exact Except.noConfusion h
      · injection h with h
        injection h with _ h2
        subst h2
        exact List.mem_cons_of_mem u ht

theorem lookup_some_mem_snd (kws : List (List Char × List Char))
    (k v : List Char) (h : kws.lookup k = some v) :
    v ∈ kws.map Prod.snd := by
  induction kws with
  | nil => simp [List.lookup] at h
  | cons p ps ih =>
    simp only [List.lookup] at h
    rcases hk : (k == p.1) with _ | _ <;> rw [hk] at h
    · simp [ih h]
    · injection h with h
      subst h
      simp

theorem bindKeywordEnum_ok_val
    (kws : List (List Char × List Char)) (dflt : List Char) :
    ∀ (toks rest : List (List Char)) (v : List Char),
    bindKeywordEnum kws dflt toks = .ok (v, rest) →
    v ∈ kws.map Prod.snd ∨ v = dflt := by
  intro toks
  induction toks with
  | nil =>
    intro rest v h
    simp only [bindKeywordEnum] at h
    injection h with h
    injection h with h1 _
    exact Or.inr h1.symm
  | cons u us ih =>
    intro rest v h
    rcases hl : kws.lookup u with _ | w
    · simp only [bindKeywordEnum, hl] at h
      rcases hr : bindKeywordEnum kws dflt us with e | ⟨v', rest'⟩
      · simp only [hr] at h
        exact Except.noConfusion h
      · simp only [hr] at h
        injection h with h
        injection h with h1 _
        subst h1
        exact ih rest' v' hr
    · simp only [bindKeywordEnum, hl] at h
      split at h
      · exact Except.noConfusion h
      · injection h with h
        injection h with h1 _
        subst h1
        exact Or.inl (lookup_some_mem_snd kws u w hl)

theorem isPrefixOf_restore (mark t : List Char)
    (h : mark.isPrefixOf t = true) : mark ++ t.drop mark.length = t := by
  rcases List.isPrefixOf_iff_prefix.mp h with ⟨s, rfl⟩
  simp

theorem bindListTokens_forward (mark : List Char)
    (reserved : List (List Char)) :
    ∀ (toks xs rest : List (List Char)),
    bindListTokens mark reserved toks = (xs, rest) →
    (∀ x ∈ xs, mark ++ x ∈ toks ∧ mark ++ x ∉ reserved) ∧
    (∀ t ∈ rest, t ∈ toks) := by
  intro toks
  induction toks with
  | nil =>
    intro xs rest h
    simp only [bindListTokens] at h
    injection h with h1 h2
    subst h1; subst h2
    simp
  | cons u us ih =>
    intro xs rest h
    simp only [bindListTokens] at h
    split at h
    · rename_i hcond
      rcases hr : bindListTokens mark reserved us with ⟨xs', rest'⟩
      rw [hr] at h
      simp only at h
      injection h with h1 h2
      subst h1; subst h2
      obtain ⟨hxs', hrest'⟩ := ih xs' rest' hr
      refine ⟨?_, fun t ht => List.mem_cons_of_mem u (hrest' t ht)⟩
      intro x hx
      rcases List.mem_cons.mp hx with h | h
      · subst h
        rw [isPrefixOf_restore mark u hcond.1]
        exact ⟨by simp, hcond.2⟩
      · obtain ⟨hmem, hres⟩ := hxs' x h
        exact ⟨List.mem_cons_of_mem u hmem, hres⟩
    · injection h with h1 h2
      subst h1; subst h2
      exact ⟨by simp, fun t ht => ht⟩

/-! ## Query parser inversion -/

theorem splitOnChar_ne_nil (sep : Char) :
    ∀ cs : List Char, splitOnChar sep cs ≠ [] := by
  intro cs
  cases cs with
  | nil => simp [splitOnChar]
  | cons c cs =>
    rcases h : splitOnChar sep cs with _ | ⟨p, ps⟩
    · simp [splitOnChar, h]
    · by_cases hc : c = sep <;> simp [splitOnChar, h, hc]

theorem joinSep_splitOnChar (sep : Char) :
    ∀ cs : List Char, joinSep sep (splitOnChar sep cs) = cs := by
  intro cs
  induction cs with
  | nil => rfl
  | cons c cs ih =>
    rcases h : splitOnChar sep cs with _ | ⟨p, ps⟩
    · exact absurd h (splitOnChar_ne_nil sep cs)
    · rw [h] at ih
      by_cases hc : c = sep
      · simp only [splitOnChar, h, if_pos hc]
        subst hc
        simp only [joinSep]
        cases ps with
        | nil => simp only [joinSep] at ih; simp [ih, joinSep]
        | cons p2 ps2 => simp [ih]
      · simp only [splitOnChar, h, if_neg hc]
        cases ps with
        | nil =>
          simp only [joinSep] at ih ⊢
          rw [ih]
        | cons p2 ps2 =>
          simp only [joinSep] at ih ⊢
          rw [List.cons_append, ih]

theorem parseQuery_ok_inv (t : List Char) (q : Query)
    (h : parseQuery t = .ok q) :
    q.type ≠ [] ∧ q.name ≠ [] ∧ (∀ r, q.revision = some r → r ≠ []) ∧
    renderQ q = t := by
  have hj := joinSep_splitOnChar '/' t
  rcases hs : splitOnChar '/' t with _ | ⟨a, _ | ⟨b, _ | ⟨c, _ | ⟨d, l⟩⟩⟩⟩ <;>
    rw [hs] at hj <;> simp only [parseQuery, hs] at h
  · exact Except.noConfusion h
  · exact Except.noConfusion h
  · by_cases hab : a = [] ∨ b = []
    · rw [if_pos hab] at h
      exact Except.noConfusion h
    · rw [if_neg hab] at h
      push_neg at hab
      injection h with h
      subst h
      refine ⟨hab.1, hab.2, by simp, ?_⟩
      simpa [renderQ, joinSep] using hj
  · by_cases habc : a = [] ∨ b = [] ∨ c = []
    · rw [if_pos habc] at h
      exact Except.noConfusion h
    · rw [if_neg habc] at h
      push_neg at habc
      injection h with h
      subst h
      refine ⟨habc.1, habc.2.1, ?_, ?_⟩
      · intro r hr
        injection hr with hr
        subst hr
        exact habc.2.2
      · simpa [renderQ, joinSep] using hj
  · exact Except.noConfusion h

/-! ## What a successful binding looks like -/

theorem specBound_mono (reserved toks toks' : List (List Char))
    (hsub : ∀ t ∈ toks, t ∈ toks') (k : ArgKind) (v : Value)
    (h : SpecBound reserved toks k v) : SpecBound reserved toks' k v := by
  cases k <;> cases v <;> simp only [SpecBound] at h ⊢ <;> try exact h
  · exact hsub _ h
  · rcases h with ⟨h1, h2⟩ | h
    · exact Or.inl ⟨hsub _ h1, h2⟩
    · exact Or.inr h
  · intro x hx
    obtain ⟨h1, h2⟩ := h x hx
    exact ⟨hsub _ h1, h2⟩
  · obtain ⟨t, ht, h1, h2⟩ := h
    exact ⟨t, hsub t ht, h1, h2⟩

theorem bindSpecs_forward (reserved : List (List Char)) :
    ∀ (specs : List ArgumentSpec) (toks : List (List Char))
      (m : List (List Char × Value)),
    bindSpecs reserved specs toks = .ok m →
    List.Forall₂
      (fun (s : ArgumentSpec) (p : List Char × Value) =>
        p.1 = s.name ∧ SpecBound reserved toks s.kind p.2) specs m := by
  intro specs
  induction specs with
  | nil =>
    intro toks m h
    simp only [bindSpecs] at h
    split at h
    · injection h with h
      subst h
      exact List.Forall₂.nil
    · exact Except.noConfusion h
  | cons spec specs ih =>
    intro toks m h
    rcases spec with ⟨nm, kind⟩
    cases kind with
    | posRequired =>
      cases toks with
      | nil =>
        simp only [bindSpecs] at h
        exact Except.noConfusion h
      | cons t ts =>
        simp only [bindSpecs] at h
        obtain ⟨m', hm', rfl⟩ := exceptMap_ok _ _ _ h
        refine List.Forall₂.cons ⟨rfl, by simp [SpecBound]⟩ ?_
        exact (ih ts m' hm').imp fun {s p} hp =>
          ⟨hp.1, specBound_mono _ _ _ (by simp +contextual) _ _ hp.2⟩
    | posOptValidated valid dflt =>
      cases toks with
      | nil =>
        simp only [bindSpecs] at h
        obtain ⟨m', hm', rfl⟩ := exceptMap_ok _ _ _ h
        refine List.Forall₂.cons ⟨rfl, Or.inr rfl⟩ ?_
        exact (ih [] m' hm').imp fun {s p} hp => ⟨hp.1, hp.2⟩
      | cons t ts =>
        simp only [bindSpecs] at h
        by_cases hv : valid t = true
        · rw [if_pos hv] at h
          obtain ⟨m', hm', rfl⟩ := exceptMap_ok _ _ _ h
          refine List.Forall₂.cons ⟨rfl, Or.inl ⟨by simp, hv⟩⟩ ?_
          exact (ih ts m' hm').imp fun {s p} hp =>
            ⟨hp.1, specBound_mono _ _ _ (by simp +contextual) _ _ hp.2⟩
        · rw [if_neg hv] at h
          obtain ⟨m', hm', rfl⟩ := exceptMap_ok _ _ _ h
          refine List.Forall₂.cons ⟨rfl, Or.inr rfl⟩ ?_
          exact (ih (t :: ts) m' hm').imp fun {s p} hp => ⟨hp.1, hp.2⟩
    | keywordEnum kws dflt =>
      simp only [bindSpecs] at h
      rcases hk : bindKeywordEnum kws dflt toks with e | ⟨v, rest⟩ <;>
        simp only [hk] at h
      · exact Except.noConfusion h
      · obtain ⟨m', hm', rfl⟩ := exceptMap_ok _ _ _ h
        refine List.Forall₂.cons
          ⟨rfl, bindKeywordEnum_ok_val kws dflt toks rest v hk⟩ ?_
        exact (ih rest m' hm').imp fun {s p} hp =>
          ⟨hp.1, specBound_mono _ _ _
            (bindKeywordEnum_rest_mem kws dflt toks rest v hk) _ _ hp.2⟩
    | listTokens mark =>
      simp only [bindSpecs] at h
      rcases hl : bindListTokens mark reserved toks with ⟨xs, rest⟩
      simp only [hl] at h
      obtain ⟨m', hm', rfl⟩ := exceptMap_ok _ _ _ h
      obtain ⟨hxs, hrest⟩ := bindListTokens_forward mark reserved toks xs rest hl
      refine List.Forall₂.cons ⟨rfl, hxs⟩ ?_
      exact (ih rest m' hm').imp fun {s p} hp =>
        ⟨hp.1, specBound_mono _ _ _ hrest _ _ hp.2⟩
    | query =>
      cases toks with
      | nil =>
        simp only [bindSpecs] at h
        exact Except.noConfusion h
      | cons t ts =>
        simp only [bindSpecs] at h
        rcases hq : parseQuery t with e | q <;> simp only [hq] at h
        · exact Except.noConfusion h
        · obtain ⟨m', hm', rfl⟩ := exceptMap_ok _ _ _ h
          obtain ⟨-, -, -, hrq⟩ := parseQuery_ok_inv t q hq
          refine List.Forall₂.cons ⟨rfl, ⟨t, by simp, hq, hrq⟩⟩ ?_
          exact (ih ts m' hm').imp fun {s p} hp =>
            ⟨hp.1, specBound_mono _ _ _ (by simp +contextual) _ _ hp.2⟩

/-! ## Claim C4: a successful binding covers every spec -/

/-- Claim C4: when the Argument Binder succeeds, the resulting augments
bind every declared argument spec in order (each from input or from its
default — `track acme/widgets` yields all defaults), and leftover tokens
after all specs are processed fail with UnexpectedArgument. -/
theorem c4_bindSpecs_spec :
    (∀ (reserved : List (List Char)) (specs : List ArgumentSpec)
       (toks : List (List Char)) (m : List (List Char × Value)),
      bindSpecs reserved specs toks = .ok m →
      m.map Prod.fst = specs.map ArgumentSpec.name) ∧
    (∀ (reserved toks : List (List Char)),
      toks ≠ [] → bindSpecs reserved [] toks = .error .UnexpectedArgument) ∧
    parse builtins "track acme/widgets" =
      .ok ⟨"track".data, none,
        [("repo".data, .str "acme/widgets".data),
         ("channels".data, .list []),
         ("author_filter".data, .str "mine".data),
         ("result_filter".data, .str "all".data),
         ("branches".data, .list [])]⟩ := by
  refine ⟨?_, ?_, rfl⟩
  · intro reserved specs toks m h
    have hf := bindSpecs_forward reserved specs toks m h
    clear h
    induction hf with
    | nil => rfl
    | cons h1 _ ih2 => simp [ih2, h1.1]
  · intro reserved toks htoks
    simp only [bindSpecs]
    rw [if_neg htoks]

/-- Witness for C4 at a concrete input: binding the `logs` specs against
one query token succeeds and covers exactly the declared spec names, and
a leftover token against no specs is UnexpectedArgument. -/
theorem c4_bindSpecs_spec_witness :
    [("query".data, Value.query ⟨"deployment".data, "myapp".data, none⟩),
     ("direction".data, Value.str "bottom".data),
     ("lines".data, Value.str "25".data)].map Prod.fst =
      logsDef.argumentSpecs.map ArgumentSpec.name ∧
    bindSpecs [] [] ["x".data] = .error .UnexpectedArgument :=
  ⟨c4_bindSpecs_spec.1 (reservedOf logsDef.argumentSpecs)
      logsDef.argumentSpecs ["deployment/myapp".data] _ rfl,
   c4_bindSpecs_spec.2.1 [] ["x".data] (by decide)⟩

/-! ## Error classification of the binder -/

theorem parseQuery_error_inv (t : List Char) (e : ParseError)
    (h : parseQuery t = .error e) : e = .InvalidQuery := by
  rcases hs : splitOnChar '/' t with _ | ⟨a, _ | ⟨b, _ | ⟨c, _ | ⟨d, l⟩⟩⟩⟩ <;>
    simp only [parseQuery, hs] at h
  · injection h with h; exact h.symm
  · injection h with h; exact h.symm
  · by_cases hab : a = [] ∨ b = []
    · rw [if_pos hab] at h
      injection h with h; exact h.symm
    · rw [if_neg hab] at h
      exact Except.noConfusion h
  · by_cases habc : a = [] ∨ b = [] ∨ c = []
    · rw [if_pos habc] at h
      injection h with h; exact h.symm
    · rw [if_neg habc] at h
      exact Except.noConfusion h
  · injection h with h; exact h.symm

theorem bindKeywordEnum_error_inv
    (kws : List (List Char × List Char)) (dflt : List Char) :
    ∀ (toks : List (List Char)) (e : ParseError),
    bindKeywordEnum kws dflt toks = .error e → e = .DuplicateKeyword := by
  intro toks
  induction toks with
  | nil =>
    intro e h
    exact Except.noConfusion h
  | cons u us ih =>
    intro e h
    rcases hl : kws.lookup u with _ | w
    · simp only [bindKeywordEnum, hl] at h
      rcases hr : bindKeywordEnum kws dflt us with e' | ⟨v', rest'⟩ <;>
        simp only [hr] at h
      · injection h with h
        subst h
        exact ih e' hr
      · exact Except.noConfusion h
    · simp only [bindKeywordEnum, hl] at h
      split at h
      · injection h with h; exact h.symm
      · exact Except.noConfusion h

theorem bindSpecs_error_inv (reserved : List (List Char)) :
    ∀ (specs : List ArgumentSpec) (toks : List (List Char)) (e : ParseError),
    bindSpecs reserved specs toks = .error e →
    e = .MissingArgument ∨ e = .InvalidQuery ∨ e = .DuplicateKeyword ∨
      e = .UnexpectedArgument := by
  intro specs
  induction specs with
  | nil =>
    intro toks e h
    simp only [bindSpecs] at h
    split at h
    · exact Except.noConfusion h
    · injection h with h
      subst h
      simp
  | cons spec specs ih =>
    intro toks e h
    rcases spec with ⟨nm, kind⟩
    have mapErr : ∀ (x : Except ParseError (List (List Char × Value)))
        (f : List (List Char × Value) → List (List Char × Value)),
        x.map f = .error e → x = .error e := by
      intro x f hx
      cases x with
      | ok a => simp [Except.map] at hx
      | error e' =>
        simp only [Except.map] at hx
        injection hx with hx
        rw [hx]
    cases kind with
    | posRequired =>
      cases toks with
      | nil =>
        simp only [bindSpecs] at h
        injection h with h
        subst h
        simp
      | cons t ts =>
        simp only [bindSpecs] at h
        exact ih ts e (mapErr _ _ h)
    | posOptValidated valid dflt =>
      cases toks with
      | nil =>
        simp only [bindSpecs] at h
        exact ih [] e (mapErr _ _ h)
      | cons t ts =>
        simp only [bindSpecs] at h
        by_cases hv : valid t = true
        · rw [if_pos hv] at h
          exact ih ts e (mapErr _ _ h)
        · rw [if_neg hv] at h
          exact ih (t :: ts) e (mapErr _ _ h)
    | keywordEnum kws dflt =>
      simp only [bindSpecs] at h
      rcases hk : bindKeywordEnum kws dflt toks with e' | ⟨v, rest⟩ <;>
        simp only [hk] at h
      · injection h with h
        subst h
        exact Or.inr (Or.inr (Or.inl
          (bindKeywordEnum_error_inv kws dflt toks e' hk)))
      · exact ih rest e (mapErr _ _ h)
    | listTokens mark =>
      simp only [bindSpecs] at h
      rcases hl : bindListTokens mark reserved toks with ⟨xs, rest⟩
      simp only [hl] at h
      exact ih rest e (mapErr _ _ h)
    | query =>
      cases toks with
      | nil =>
        simp only [bindSpecs] at h
        injection h with h
        subst h
        simp
      | cons t ts =>
        simp only [bindSpecs] at h
        rcases hq : parseQuery t with e' | q <;> simp only [hq] at h
        · injection h with h
          subst h
          exact Or.inr (Or.inl (parseQuery_error_inv t e' hq))
        · exact ih ts e (mapErr _ _ h)

/-! ## Claim C2: dispatcher pipeline -/

/-- Claim C2: `parse` fails with EmptyMessage exactly when tokenizing
yields no tokens; the first token is resolved case-insensitively against
registry command names (`GET`, `Get`, `get` agree), failing with
UnknownCommand when nothing matches; a definition with a non-empty
subcommand set requires the next token to match one of them
case-insensitively or parse fails with UnknownSubcommand; and the result
is always either a complete CommandRequest or a single first error —
never a partial request. -/
theorem c2_parse_spec (reg : List CommandDefinition) (raw : String) :
    (parse reg raw = .error .EmptyMessage ↔ tokenize raw.data = []) ∧
    (∀ cmd rest, tokenize raw.data = cmd :: rest →
      (∀ d ∈ reg, lower d.name ≠ lower cmd) →
      parse reg raw = .error .UnknownCommand) ∧
    (∀ cmd cmd2, lower cmd = lower cmd2 →
      reg.find? (fun d => lower d.name = lower cmd) =
        reg.find? (fun d => lower d.name = lower cmd2)) ∧
    (parse builtins "GET pods/x" = parse builtins "get pods/x" ∧
      parse builtins "Get pods/x" = parse builtins "get pods/x") ∧
    (∀ cmd rest d, tokenize raw.data = cmd :: rest →
      reg.find? (fun e => lower e.name = lower cmd) = some d →
      d.subcommands ≠ [] →
      (rest = [] ∨ ∃ sub rest2, rest = sub :: rest2 ∧
        ∀ s ∈ d.subcommands, lower s ≠ lower sub) →
      parse reg raw = .error .UnknownSubcommand) ∧
    ((∃ e, parse reg raw = .error e) ∨
      ∃ req, parse reg raw = .ok req) := by
  refine ⟨⟨?_, ?_⟩, ?_, ?_, ⟨rfl, rfl⟩, ?_, ?_⟩
  · intro h
    rcases htok : tokenize raw.data with _ | ⟨cmd, rest⟩
    · rfl
    · exfalso
      simp only [parse, htok] at h
      rcases hf : reg.find? (fun d => lower d.name = lower cmd) with _ | d <;>
        simp only [hf] at h
      · exact ParseError.noConfusion (Except.error.inj h)
      · by_cases hsub : d.subcommands = []
        · rw [if_pos hsub] at h
          rcases hb : bindSpecs (reservedOf d.argumentSpecs)
              d.argumentSpecs rest with e | m <;>
            simp only [hb, Except.map] at h
          · have := bindSpecs_error_inv _ _ _ _ hb
            rw [Except.error.inj h] at this
            simp at this
          · exact Except.noConfusion h
        · rw [if_neg hsub] at h
          cases rest with
          | nil => exact ParseError.noConfusion (Except.error.inj h)
          | cons sub rest2 =>
            rcases hs : d.subcommands.find? (fun s => lower s = lower sub)
                with _ | s <;> simp only [hs] at h
            · exact ParseError.noConfusion (Except.error.inj h)
            · rcases hb : bindSpecs (reservedOf d.argumentSpecs)
                  d.argumentSpecs rest2 with e | m <;>
                simp only [hb, Except.map] at h
              · have := bindSpecs_error_inv _ _ _ _ hb
                rw [Except.error.inj h] at this
                simp at this
              · exact Except.noConfusion h
  · intro h
    simp only [parse, h]
  · intro cmd rest htok hno
    have hf : reg.find? (fun d => lower d.name = lower cmd) = none := by
      rw [List.find?_eq_none]
      intro d hd
      simpa using hno d hd
    simp only [parse, htok, hf]
  · intro cmd cmd2 hl
    rw [hl]
  · intro cmd rest d htok hfind hsub hbad
    simp only [parse, htok, hfind]
    rw [if_neg hsub]
    rcases hbad with rfl | ⟨sub, rest2, rfl, hnosub⟩
    · rfl
    · have hf : d.subcommands.find? (fun s => lower s = lower sub) = none := by
        rw [List.find?_eq_none]
        intro s hs
        simpa using hnosub s hs
      simp only [hf]
  · cases hp : parse reg raw with
    | ok req => exact Or.inr ⟨req, rfl⟩
    | error e => exact Or.inl ⟨e, rfl⟩

/-- Witness for C2 at concrete inputs: an all-whitespace message is
EmptyMessage, an unknown verb is UnknownCommand, and `rollout frobnicate`
is UnknownSubcommand. -/
theorem c2_parse_spec_witness :
    parse builtins " \t " = .error .EmptyMessage ∧
    parse builtins "frobnicate pods/x" = .error .UnknownCommand ∧
    parse builtins "rollout frobnicate deployment/x" =
      .error .UnknownSubcommand :=
  ⟨(c2_parse_spec builtins " \t ").1.mpr (by decide),
   (c2_parse_spec builtins "frobnicate pods/x").2.1 "frobnicate".data
      ["pods/x".data] (by decide) (by decide),
   (c2_parse_spec builtins "rollout frobnicate deployment/x").2.2.2.2.1
      "rollout".data ["frobnicate".data, "deployment/x".data] rolloutDef
      (by decide) rfl (by decide)
      (Or.inr ⟨"frobnicate".data, ["deployment/x".data], rfl, by decide⟩)⟩

/-! ## Claim C6: logs binding -/

/-- Claim C6: `logs deployment/myapp top 50` binds direction `top` and
lines `50`; `logs deployment/myapp` binds the defaults direction
`bottom` and lines `25`. -/
theorem c6_logs_spec :
    parse builtins "logs deployment/myapp top 50" =
      .ok ⟨"logs".data, none,
        [("query".data, .query ⟨"deployment".data, "myapp".data, none⟩),
         ("direction".data, .str "top".data),
         ("lines".data, .str "50".data)]⟩ ∧
    parse builtins "logs deployment/myapp" =
      .ok ⟨"logs".data, none,
        [("query".data, .query ⟨"deployment".data, "myapp".data, none⟩),
         ("direction".data, .str "bottom".data),
         ("lines".data, .str "25".data)]⟩ :=
  ⟨rfl, rfl⟩

/-! ## Claim C7: loader and NewBot -/

/-- Claim C7: the Loader registers the built-in definitions (get,
describe, rollout with subcommands status|pause|resume|history|undo,
scale, logs, version, track, config, help) into a fresh Registry without
failure, and NewBot aborts — returning the error and no Bot — whenever
loading the registry fails. -/
theorem c7_loader_spec :
    (∀ e : RegError, newBotWith (.error e) = .error e) ∧
    loadAll = .ok builtins ∧
    newBot = .ok ⟨builtins⟩ ∧
    builtins.map CommandDefinition.name =
      ["get".data, "describe".data, "rollout".data, "scale".data,
       "logs".data, "version".data, "track".data, "config".data,
       "help".data] ∧
    rolloutDef.subcommands =
      ["status".data, "pause".data, "resume".data, "history".data,
       "undo".data] :=
  ⟨fun _ => rfl, rfl, rfl, rfl, rfl⟩

/-! ## Claim C8: parse errors surface as chat replies -/

/-- Claim C8: every parse-time error is returned as a value and rendered
by the bot's message handler into a single chat reply on the message's
channel (the handler itself returns nil), never a crash. -/
theorem c8_errors_as_replies (text channel : String) (e : ParseError)
    (h : parse builtins text = .error e) :
    handleMessage builtins text channel =
      ([⟨"Whoops I had a brain fart: ".data ++ errText e, channel.data⟩],
        none) := by
  simp only [handleMessage, h]

/-- Witness for C8: the empty message produces exactly the rendered
EmptyMessage reply. -/
theorem c8_errors_as_replies_witness :
    handleMessage builtins "" "general" =
      ([⟨"Whoops I had a brain fart: ".data ++ errText .EmptyMessage,
        "general".data⟩], none) :=
  c8_errors_as_replies "" "general" .EmptyMessage rfl

/-! ## Claim C10: handleMessage is total and sends one reply -/

/-- Claim C10: for every incoming message, `handleMessage` returns nil
and sends exactly one text reply to the message's channel: the argument
listing on parse success, the error text on parse failure. -/
theorem c10_handleMessage_spec (text channel : String) :
    (handleMessage builtins text channel).2 = none ∧
    (handleMessage builtins text channel).1.length = 1 ∧
    (∀ r ∈ (handleMessage builtins text channel).1,
      r.channel = channel.data) ∧
    (∀ req, parse builtins text = .ok req →
      handleMessage builtins text channel =
        ([⟨successText req, channel.data⟩], none)) ∧
    (∀ e, parse builtins text = .error e →
      handleMessage builtins text channel =
        ([⟨"Whoops I had a brain fart: ".data ++ errText e,
          channel.data⟩], none)) := by
  cases hp : parse builtins text with
  | ok req =>
    refine ⟨by simp [handleMessage, hp], by simp [handleMessage, hp],
      ?_, ?_, ?_⟩
    · intro r hr
      simp only [handleMessage, hp, List.mem_singleton] at hr
      rw [hr]
    · intro req' hreq
      injection hreq with hreq
      subst hreq
      simp [handleMessage, hp]
    · intro e he
      exact Except.noConfusion he
  | error e =>
    refine ⟨by simp [handleMessage, hp], by simp [handleMessage, hp],
      ?_, ?_, ?_⟩
    · intro r hr
      simp only [handleMessage, hp, List.mem_singleton] at hr
      rw [hr]
    · intro req' hreq
      exact Except.noConfusion hreq
    · intro e' he
      injection he with he
      subst he
      simp [handleMessage, hp]

/-- Witness for C10: a `help` message gets exactly its argument-listing
reply, and a garbage message gets exactly its error reply. -/
theorem c10_handleMessage_spec_witness :
    handleMessage builtins "help" "c1" =
      ([⟨successText ⟨"help".data, none, []⟩, "c1".data⟩], none) ∧
    handleMessage builtins "nonsense" "c2" =
      ([⟨"Whoops I had a brain fart: ".data ++ errText .UnknownCommand,
        "c2".data⟩], none) :=
  ⟨(c10_handleMessage_spec "help" "c1").2.2.2.1 ⟨"help".data, none, []⟩ rfl,
   (c10_handleMessage_spec "nonsense" "c2").2.2.2.2 .UnknownCommand rfl⟩

/-! ## Rebuilding a token stream from its canonical text -/

theorem tokAux_append_word : ∀ (t rest acc : List Char),
    (∀ c ∈ t, c.isWhitespace = false) →
    tokAux (t ++ rest) acc = tokAux rest (t.reverse ++ acc) := by
  intro t
  induction t with
  | nil => intro rest acc _; simp
  | cons c t ih =>
    intro rest acc h
    have hc : c.isWhitespace = false := h c (by simp)
    simp only [List.cons_append, tokAux, hc, List.append_eq]
    rw [if_neg (by simp)]
    rw [ih rest (c :: acc) fun u hu => h u (by simp [hu])]
    simp

theorem tokAux_ws_split (c : Char) (hc : c.isWhitespace = true) :
    ∀ (a b acc : List Char),
    tokAux (a ++ c :: b) acc = tokAux a acc ++ tokAux b [] := by
  intro a
  induction a with
  | nil =>
    intro b acc
    by_cases hacc : acc = [] <;> simp [tokAux, hc, hacc]
  | cons x a ih =>
    intro b acc
    by_cases hx : x.isWhitespace = true
    · by_cases hacc : acc = [] <;> simp [tokAux, hx, hacc, ih]
    · simp only [List.cons_append, tokAux, hx]
      rw [if_neg (by simp [hx])]
      rw [if_neg (by simp [hx])]
      exact ih b (x :: acc)

theorem tokenize_single (t : List Char) (h : GoodTok t) :
    tokenize t = [t] := by
  obtain ⟨hne, hws⟩ := h
  have hw := tokAux_append_word t [] [] hws
  simp only [List.append_nil] at hw
  rw [tokenize, hw]
  simp [tokAux, hne]

theorem tokenize_joinTokens : ∀ (ts : List (List Char)) (acc : List Char),
    (∀ t ∈ ts, GoodTok t) →
    tokenize (joinTokens acc ts) = tokenize acc ++ ts := by
  intro ts
  induction ts with
  | nil => intro acc _; simp [joinTokens]
  | cons t ts ih =>
    intro acc h
    simp only [joinTokens]
    rw [ih _ fun u hu => h u (by simp [hu])]
    have hsp : tokenize (acc ++ ' ' :: t) = tokenize acc ++ tokenize t :=
      tokAux_ws_split ' ' (by decide) acc t []
    rw [hsp, tokenize_single t (h t (by simp))]
    simp

theorem tokenize_render (t0 : List Char) (ts : List (List Char))
    (h0 : GoodTok t0) (hts : ∀ t ∈ ts, GoodTok t) :
    tokenize (joinTokens t0 ts) = t0 :: ts := by
  rw [tokenize_joinTokens ts t0 hts, tokenize_single t0 h0]
  rfl

theorem bindListTokens_all (res : List (List Char)) :
    ∀ bs : List (List Char), (∀ x ∈ bs, x ∉ res) →
    bindListTokens [] res bs = (bs, []) := by
  intro bs
  induction bs with
  | nil => intro _; rfl
  | cons b bs ih =>
    intro h
    simp only [bindListTokens]
    rw [if_pos ⟨by simp [List.isPrefixOf], h b (by simp)⟩]
    rw [ih fun x hx => h x (by simp [hx])]
    simp

theorem bindListTokens_marked (mc : Char) (res : List (List Char)) :
    ∀ (q : List (List Char)) (y : List Char) (z : List (List Char)),
    (∀ x ∈ q, (mc :: x) ∉ res) →
    [mc].isPrefixOf y = false →
    bindListTokens [mc] res (q.map (fun x => mc :: x) ++ y :: z) =
      (q, y :: z) := by
  intro q
  induction q with
  | nil =>
    intro y z _ hy
    simp only [List.map_nil, List.nil_append, bindListTokens]
    rw [if_neg (by simp [hy])]
  | cons x q ih =>
    intro y z hres hy
    simp only [List.map_cons, List.cons_append, bindListTokens,
      List.append_eq]
    rw [if_pos ⟨by simp [List.isPrefixOf], hres x (by simp)⟩]
    rw [ih y z (fun u hu => hres u (by simp [hu])) hy]
    simp

/-! ## Per-command rebinding of the canonical form -/

theorem rebindQuerySpecs (res rest : List (List Char))
    (m : List (List Char × Value))
    (hgood : ∀ t ∈ rest, GoodTok t)
    (hb : bindSpecs res [queryArg] rest = .ok m) :
    ∃ q : Query, m = [("query".data, .query q)] ∧
      renderAugments [queryArg] m = [renderQ q] ∧
      GoodTok (renderQ q) ∧
      bindSpecs res [queryArg] [renderQ q] = .ok m := by
  have hf := bindSpecs_forward res [queryArg] rest m hb
  rcases hf with _ | ⟨hp, hf2⟩
  rcases hf2 with _ | _
  rename_i p
  obtain ⟨nm, v⟩ := p
  obtain ⟨hn, hsb⟩ := hp
  simp only [queryArg] at hn hsb
  cases v with
  | str s => simp [SpecBound] at hsb
  | list xs => simp [SpecBound] at hsb
  | query q =>
    obtain ⟨t, htmem, hpq, hrq⟩ := hsb
    subst hn
    refine ⟨q, rfl, by simp [renderAugments, renderValue], ?_, ?_⟩
    · rw [hrq]
      exact hgood t htmem
    · rw [hrq]
      simp only [bindSpecs, hpq, Except.map]
      rfl

theorem isPosInt_not_direction (v : List Char) (h : isPosInt v = true) :
    v ≠ "top".data ∧ v ≠ "bottom".data := by
  constructor
  · rintro rfl
    exact absurd h (by decide)
  · rintro rfl
    exact absurd h (by decide)

theorem rebindScaleSpecs (res rest : List (List Char))
    (m : List (List Char × Value))
    (hgood : ∀ t ∈ rest, GoodTok t)
    (hb : bindSpecs res [queryArg, ⟨"replicas".data, .posRequired⟩] rest =
      .ok m) :
    ∃ (q : Query) (r : List Char),
      m = [("query".data, .query q), ("replicas".data, .str r)] ∧
      renderAugments [queryArg, ⟨"replicas".data, .posRequired⟩] m =
        [renderQ q, r] ∧
      GoodTok (renderQ q) ∧ GoodTok r ∧
      bindSpecs res [queryArg, ⟨"replicas".data, .posRequired⟩]
        [renderQ q, r] = .ok m := by
  have hf := bindSpecs_forward res _ rest m hb
  rcases hf with _ | ⟨hp1, hf⟩
  rcases hf with _ | ⟨hp2, hf⟩
  rcases hf with _ | _
  rename_i p1 p2
  obtain ⟨nm1, v1⟩ := p1
  obtain ⟨nm2, v2⟩ := p2
  obtain ⟨hn1, hsb1⟩ := hp1
  obtain ⟨hn2, hsb2⟩ := hp2
  simp only [queryArg] at hn1 hsb1
  simp only at hn2 hsb2
  cases v1 with
  | str s => simp [SpecBound] at hsb1
  | list xs => simp [SpecBound] at hsb1
  | query q =>
    cases v2 with
    | list xs => simp [SpecBound] at hsb2
    | query q2 => simp [SpecBound] at hsb2
    | str r =>
      obtain ⟨t, htmem, hpq, hrq⟩ := hsb1
      have hrmem : r ∈ rest := hsb2
      have hgr : GoodTok r := hgood r hrmem
      have hpq2 : parseQuery (renderQ q) = .ok q := by rw [hrq]; exact hpq
      subst hn1
      subst hn2
      refine ⟨q, r, rfl, ?_, ?_, hgr, ?_⟩
      · simp [renderAugments, renderValue, hgr.1]
      · rw [hrq]; exact hgood t htmem
      · simp only [bindSpecs, hpq2, Except.map]
        rfl

theorem rebindLogsSpecs (res rest : List (List Char))
    (m : List (List Char × Value))
    (hgood : ∀ t ∈ rest, GoodTok t)
    (hb : bindSpecs res
      [queryArg,
       ⟨"direction".data, .keywordEnum [kw "top", kw "bottom"] "bottom".data⟩,
       ⟨"lines".data, .posOptValidated isPosInt "25".data⟩] rest = .ok m) :
    ∃ (q : Query) (dv lv : List Char),
      m = [("query".data, .query q), ("direction".data, .str dv),
           ("lines".data, .str lv)] ∧
      renderAugments
        [queryArg,
         ⟨"direction".data, .keywordEnum [kw "top", kw "bottom"] "bottom".data⟩,
         ⟨"lines".data, .posOptValidated isPosInt "25".data⟩] m =
        [renderQ q, dv, lv] ∧
      GoodTok (renderQ q) ∧ GoodTok dv ∧ GoodTok lv ∧
      bindSpecs res
        [queryArg,
         ⟨"direction".data, .keywordEnum [kw "top", kw "bottom"] "bottom".data⟩,
         ⟨"lines".data, .posOptValidated isPosInt "25".data⟩]
        [renderQ q, dv, lv] = .ok m := by
  have hf := bindSpecs_forward res _ rest m hb
  rcases hf with _ | ⟨hp1, hf⟩
  rcases hf with _ | ⟨hp2, hf⟩
  rcases hf with _ | ⟨hp3, hf⟩
  rcases hf with _ | _
  rename_i p1 p2 p3
  obtain ⟨nm1, v1⟩ := p1
  obtain ⟨nm2, v2⟩ := p2
  obtain ⟨nm3, v3⟩ := p3
  obtain ⟨hn1, hsb1⟩ := hp1
  obtain ⟨hn2, hsb2⟩ := hp2
  obtain ⟨hn3, hsb3⟩ := hp3
  simp only [queryArg] at hn1 hsb1
  simp only at hn2 hsb2 hn3 hsb3
  cases v1 with
  | str s => simp [SpecBound] at hsb1
  | list xs => simp [SpecBound] at hsb1
  | query q =>
    cases v2 with
    | list xs => simp [SpecBound] at hsb2
    | query q2 => simp [SpecBound] at hsb2
    | str dv =>
      cases v3 with
      | list xs => simp [SpecBound] at hsb3
      | query q3 => simp [SpecBound] at hsb3
      | str lv =>
        obtain ⟨t, htmem, hpq, hrq⟩ := hsb1
        have hdv : dv = "top".data ∨ dv = "bottom".data := by
          simp only [SpecBound, kw] at hsb2
          rcases hsb2 with h | h
          · simpa using h
          · exact Or.inr h
        have hlv : isPosInt lv = true ∧ GoodTok lv := by
          simp only [SpecBound] at hsb3
          rcases hsb3 with ⟨hmem, hval⟩ | rfl
          · exact ⟨hval, hgood lv hmem⟩
          · exact ⟨by decide, by constructor <;> decide⟩
        have hlvne := isPosInt_not_direction lv hlv.1
        have hpq2 : parseQuery (renderQ q) = .ok q := by rw [hrq]; exact hpq
        have hlook_lv :
            List.lookup lv [kw "top", kw "bottom"] = none := by
          simp [List.lookup, kw, beq_eq_false_iff_ne.mpr hlvne.1,
            beq_eq_false_iff_ne.mpr hlvne.2]
        have hany : ([lv].any fun u =>
            (List.lookup u [kw "top", kw "bottom"]).isSome) = false := by
          simp [hlook_lv]
        have hkw : bindKeywordEnum [kw "top", kw "bottom"] "bottom".data
            [dv, lv] = .ok (dv, [lv]) := by
          rcases hdv with rfl | rfl
          · have hl : List.lookup "top".data [kw "top", kw "bottom"] =
                some "top".data := by decide
            simp only [bindKeywordEnum, hl]
            rw [if_neg (by simp [hany])]
          · have hl : List.lookup "bottom".data [kw "top", kw "bottom"] =
                some "bottom".data := by decide
            simp only [bindKeywordEnum, hl]
            rw [if_neg (by simp [hany])]
        subst hn1
        subst hn2
        subst hn3
        refine ⟨q, dv, lv, rfl, ?_, ?_, ?_, hlv.2, ?_⟩
        · have hdvne : dv ≠ [] := by
            rcases hdv with rfl | rfl <;> decide
          simp [renderAugments, renderValue, hdvne, hlv.2.1]
        · rw [hrq]; exact hgood t htmem
        · rcases hdv with rfl | rfl <;> exact ⟨by decide, by decide⟩
        · simp only [bindSpecs, hpq2, Except.map, hkw]
          rw [if_pos hlv.1]
          rfl

theorem rebindTrackSpecs (rest : List (List Char))
    (m : List (List Char × Value))
    (hgood : ∀ t ∈ rest, GoodTok t)
    (hb : bindSpecs
      ["anyones".data, "mine".data, "none".data,
       "all".data, "failure".data, "success".data]
      [⟨"repo".data, .posRequired⟩,
       ⟨"channels".data, .listTokens ['#']⟩,
       ⟨"author_filter".data,
         .keywordEnum [kw "anyones", kw "mine", kw "none"] "mine".data⟩,
       ⟨"result_filter".data,
         .keywordEnum [kw "all", kw "failure", kw "success"] "all".data⟩,
       ⟨"branches".data, .listTokens []⟩] rest = .ok m) :
    ∃ (r : List Char) (cs : List (List Char)) (a f : List Char)
      (bs : List (List Char)),
      m = [("repo".data, .str r), ("channels".data, .list cs),
           ("author_filter".data, .str a), ("result_filter".data, .str f),
           ("branches".data, .list bs)] ∧
      renderAugments
        [⟨"repo".data, .posRequired⟩,
         ⟨"channels".data, .listTokens ['#']⟩,
         ⟨"author_filter".data,
           .keywordEnum [kw "anyones", kw "mine", kw "none"] "mine".data⟩,
         ⟨"result_filter".data,
           .keywordEnum [kw "all", kw "failure", kw "success"] "all".data⟩,
         ⟨"branches".data, .listTokens []⟩] m =
        r :: (cs.map (fun x => '#' :: x) ++ a :: f :: bs) ∧
      (∀ tok ∈ r :: (cs.map (fun x => '#' :: x) ++ a :: f :: bs),
        GoodTok tok) ∧
      bindSpecs
        ["anyones".data, "mine".data, "none".data,
         "all".data, "failure".data, "success".data]
        [⟨"repo".data, .posRequired⟩,
         ⟨"channels".data, .listTokens ['#']⟩,
         ⟨"author_filter".data,
           .keywordEnum [kw "anyones", kw "mine", kw "none"] "mine".data⟩,
         ⟨"result_filter".data,
           .keywordEnum [kw "all", kw "failure", kw "success"] "all".data⟩,
         ⟨"branches".data, .listTokens []⟩]
        (r :: (cs.map (fun x => '#' :: x) ++ a :: f :: bs)) = .ok m := by
  have hf := bindSpecs_forward _ _ rest m hb
  rcases hf with _ | ⟨hp1, hf⟩
  rcases hf with _ | ⟨hp2, hf⟩
  rcases hf with _ | ⟨hp3, hf⟩
  rcases hf with _ | ⟨hp4, hf⟩
  rcases hf with _ | ⟨hp5, hf⟩
  rcases hf with _ | _
  rename_i p1 p2 p3 p4 p5
  obtain ⟨nm1, v1⟩ := p1
  obtain ⟨nm2, v2⟩ := p2
  obtain ⟨nm3, v3⟩ := p3
  obtain ⟨nm4, v4⟩ := p4
  obtain ⟨nm5, v5⟩ := p5
  obtain ⟨hn1, hsb1⟩ := hp1
  obtain ⟨hn2, hsb2⟩ := hp2
  obtain ⟨hn3, hsb3⟩ := hp3
  obtain ⟨hn4, hsb4⟩ := hp4
  obtain ⟨hn5, hsb5⟩ := hp5
  simp only at hn1 hsb1 hn2 hsb2 hn3 hsb3 hn4 hsb4 hn5 hsb5
  cases v1 with
  | list xs => simp [SpecBound] at hsb1
  | query q => simp [SpecBound] at hsb1
  | str r =>
  cases v2 with
  | str s => simp [SpecBound] at hsb2
  | query q => simp [SpecBound] at hsb2
  | list cs =>
  cases v3 with
  | list xs => simp [SpecBound] at hsb3
  | query q => simp [SpecBound] at hsb3
  | str a =>
  cases v4 with
  | list xs => simp [SpecBound] at hsb4
  | query q => simp [SpecBound] at hsb4
  | str f =>
  cases v5 with
  | str s => simp [SpecBound] at hsb5
  | query q => simp [SpecBound] at hsb5
  | list bs =>
  subst hn1; subst hn2; subst hn3; subst hn4; subst hn5
  have hrmem : r ∈ rest := hsb1
  have hcs : ∀ x ∈ cs, ('#' :: x) ∈ rest ∧
      ('#' :: x) ∉ ["anyones".data, "mine".data, "none".data,
        "all".data, "failure".data, "success".data] := by
    intro x hx
    exact (hsb2 x hx)
  have hbs : ∀ x ∈ bs, x ∈ rest ∧
      x ∉ ["anyones".data, "mine".data, "none".data,
        "all".data, "failure".data, "success".data] := by
    intro x hx
    have := hsb5 x hx
    simpa using this
  have ha : a = "anyones".data ∨ a = "mine".data ∨ a = "none".data := by
    simp only [SpecBound, kw] at hsb3
    rcases hsb3 with h | h
    · simpa using h
    · exact Or.inr (Or.inl h)
  have hfv : f = "all".data ∨ f = "failure".data ∨ f = "success".data := by
    simp only [SpecBound, kw] at hsb4
    rcases hsb4 with h | h
    · simpa using h
    · exact Or.inl h
  have hane : a ≠ [] := by rcases ha with rfl | rfl | rfl <;> decide
  have hfne : f ≠ [] := by rcases hfv with rfl | rfl | rfl <;> decide
  have hch : bindListTokens ['#']
      ["anyones".data, "mine".data, "none".data,
       "all".data, "failure".data, "success".data]
      (cs.map (fun x => '#' :: x) ++ a :: (f :: bs)) =
      (cs, a :: f :: bs) := by
    refine bindListTokens_marked '#' _ cs a (f :: bs)
      (fun x hx => (hcs x hx).2) ?_
    rcases ha with rfl | rfl | rfl <;> decide
  have hbs_na : ∀ x ∈ bs,
      List.lookup x [kw "anyones", kw "mine", kw "none"] = none := by
    intro x hx
    have h6 := (hbs x hx).2
    simp only [List.mem_cons, List.not_mem_nil, or_false, not_or] at h6
    simp [List.lookup, kw, beq_eq_false_iff_ne.mpr h6.1,
      beq_eq_false_iff_ne.mpr h6.2.1, beq_eq_false_iff_ne.mpr h6.2.2.1]
  have hbs_nr : ∀ x ∈ bs,
      List.lookup x [kw "all", kw "failure", kw "success"] = none := by
    intro x hx
    have h6 := (hbs x hx).2
    simp only [List.mem_cons, List.not_mem_nil, or_false, not_or] at h6
    simp [List.lookup, kw, beq_eq_false_iff_ne.mpr h6.2.2.2.1,
      beq_eq_false_iff_ne.mpr h6.2.2.2.2.1,
      beq_eq_false_iff_ne.mpr h6.2.2.2.2.2]
  have hf_na : List.lookup f [kw "anyones", kw "mine", kw "none"] = none := by
    rcases hfv with rfl | rfl | rfl <;> decide
  have hany_a : ((f :: bs).any fun u =>
      (List.lookup u [kw "anyones", kw "mine", kw "none"]).isSome) =
        false := by
    simp only [List.any_cons, hf_na, Option.isSome_none, Bool.false_or]
    rw [List.any_eq_false]
    intro x hx
    simp [hbs_na x hx]
  have hany_r : (bs.any fun u =>
      (List.lookup u [kw "all", kw "failure", kw "success"]).isSome) =
        false := by
    rw [List.any_eq_false]
    intro x hx
    simp [hbs_nr x hx]
  have hkw_a : bindKeywordEnum [kw "anyones", kw "mine", kw "none"]
      "mine".data (a :: f :: bs) = .ok (a, f :: bs) := by
    rcases ha with rfl | rfl | rfl
    · have hl : List.lookup "anyones".data
          [kw "anyones", kw "mine", kw "none"] = some "anyones".data := by
        decide
      simp only [bindKeywordEnum, hl]
      rw [if_neg (by simp [hany_a])]
    · have hl : List.lookup "mine".data
          [kw "anyones", kw "mine", kw "none"] = some "mine".data := by
        decide
      simp only [bindKeywordEnum, hl]
      rw [if_neg (by simp [hany_a])]
    · have hl : List.lookup "none".data
          [kw "anyones", kw "mine", kw "none"] = some "none".data := by
        decide
      simp only [bindKeywordEnum, hl]
      rw [if_neg (by simp [hany_a])]
  have hkw_r : bindKeywordEnum [kw "all", kw "failure", kw "success"]
      "all".data (f :: bs) = .ok (f, bs) := by
    rcases hfv with rfl | rfl | rfl
    · have hl : List.lookup "all".data
          [kw "all", kw "failure", kw "success"] = some "all".data := by
        decide
      simp only [bindKeywordEnum, hl]
      rw [if_neg (by simp [hany_r])]
    · have hl : List.lookup "failure".data
          [kw "all", kw "failure", kw "success"] = some "failure".data := by
        decide
      simp only [bindKeywordEnum, hl]
      rw [if_neg (by simp [hany_r])]
    · have hl : List.lookup "success".data
          [kw "all", kw "failure", kw "success"] = some "success".data := by
        decide
      simp only [bindKeywordEnum, hl]
      rw [if_neg (by simp [hany_r])]
  have hbl : bindListTokens []
      ["anyones".data, "mine".data, "none".data,
       "all".data, "failure".data, "success".data] bs = (bs, []) :=
    bindListTokens_all _ bs fun x hx => (hbs x hx).2
  have hrne : r ≠ [] := (hgood r hrmem).1
  refine ⟨r, cs, a, f, bs, rfl, ?_, ?_, ?_⟩
  · simp [renderAugments, renderValue, hrne, hane, hfne]
  · intro tok htok
    rcases List.mem_cons.mp htok with rfl | htok
    · exact hgood _ hrmem
    · rcases List.mem_append.mp htok with htok | htok
      · obtain ⟨x, hx, rfl⟩ := List.mem_map.mp htok
        exact hgood _ (hcs x hx).1
      · rcases List.mem_cons.mp htok with rfl | htok
        · rcases ha with rfl | rfl | rfl <;> exact ⟨by decide, by decide⟩
        · rcases List.mem_cons.mp htok with rfl | htok
          · rcases hfv with rfl | rfl | rfl <;> exact ⟨by decide, by decide⟩
          · exact hgood tok (hbs tok htok).1
  · simp only [bindSpecs, hch, hkw_a, hkw_r, hbl, Except.map]
    rfl

theorem rebindConfigSpecs (res rest : List (List Char))
    (m : List (List Char × Value))
    (hgood : ∀ t ∈ rest, GoodTok t)
    (hb : bindSpecs res
      [⟨"key".data, .posOptValidated (fun _ => true) []⟩,
       ⟨"value".data, .posOptValidated (fun _ => true) []⟩] rest = .ok m) :
    ∃ k v : List Char,
      m = [("key".data, .str k), ("value".data, .str v)] ∧
      (∀ tok ∈ renderAugments
        [⟨"key".data, .posOptValidated (fun _ => true) []⟩,
         ⟨"value".data, .posOptValidated (fun _ => true) []⟩] m,
        GoodTok tok) ∧
      bindSpecs res
        [⟨"key".data, .posOptValidated (fun _ => true) []⟩,
         ⟨"value".data, .posOptValidated (fun _ => true) []⟩]
        (renderAugments
          [⟨"key".data, .posOptValidated (fun _ => true) []⟩,
           ⟨"value".data, .posOptValidated (fun _ => true) []⟩] m) =
        .ok m := by
  rcases rest with _ | ⟨k, _ | ⟨v, _ | ⟨w, ts⟩⟩⟩
  · have hm : m = [("key".data, .str []), ("value".data, .str [])] := by
      have : bindSpecs res
          [⟨"key".data, .posOptValidated (fun _ => true) []⟩,
           ⟨"value".data, .posOptValidated (fun _ => true) []⟩]
          ([] : List (List Char)) =
          .ok [("key".data, .str []), ("value".data, .str [])] := rfl
      rw [this] at hb
      exact (Except.ok.inj hb).symm
    subst hm
    exact ⟨[], [], rfl, by simp [renderAugments, renderValue], rfl⟩
  · have hm : m = [("key".data, .str k), ("value".data, .str [])] := by
      have : bindSpecs res
          [⟨"key".data, .posOptValidated (fun _ => true) []⟩,
           ⟨"value".data, .posOptValidated (fun _ => true) []⟩] [k] =
          .ok [("key".data, .str k), ("value".data, .str [])] := rfl
      rw [this] at hb
      exact (Except.ok.inj hb).symm
    subst hm
    have hk : GoodTok k := hgood k (by simp)
    refine ⟨k, [], rfl, ?_, ?_⟩
    · intro tok htok
      simp only [renderAugments, renderValue] at htok
      rw [if_neg hk.1] at htok
      simp at htok
      rw [htok]
      exact hk
    · simp only [renderAugments, renderValue]
      rw [if_neg hk.1]
      rfl
  · have hm : m = [("key".data, .str k), ("value".data, .str v)] := by
      have : bindSpecs res
          [⟨"key".data, .posOptValidated (fun _ => true) []⟩,
           ⟨"value".data, .posOptValidated (fun _ => true) []⟩] [k, v] =
          .ok [("key".data, .str k), ("value".data, .str v)] := rfl
      rw [this] at hb
      exact (Except.ok.inj hb).symm
    subst hm
    have hk : GoodTok k := hgood k (by simp)
    have hv : GoodTok v := hgood v (by simp)
    refine ⟨k, v, rfl, ?_, ?_⟩
    · intro tok htok
      simp only [renderAugments, renderValue] at htok
      rw [if_neg hk.1, if_neg hv.1] at htok
      simp at htok
      rcases htok with rfl | rfl
      · exact hk
      · exact hv
    · simp only [renderAugments, renderValue]
      rw [if_neg hk.1, if_neg hv.1]
      rfl
  · exfalso
    have : bindSpecs res
        [⟨"key".data, .posOptValidated (fun _ => true) []⟩,
         ⟨"value".data, .posOptValidated (fun _ => true) []⟩]
        (k :: v :: w :: ts) = .error .UnexpectedArgument := rfl
    rw [this] at hb
    exact Except.noConfusion hb

/-! ## Claim C9: the canonical form is a fixed point of parse -/

theorem parse_eval (reg : List CommandDefinition) (s : String)
    (cmd : List Char) (rest : List (List Char)) (d : CommandDefinition)
    (htok : tokenize s.data = cmd :: rest)
    (hfind : reg.find? (fun e => lower e.name = lower cmd) = some d)
    (hsub : d.subcommands = []) :
    parse reg s =
      (bindSpecs (reservedOf d.argumentSpecs) d.argumentSpecs rest).map
        (fun m => ⟨d.name, none, m⟩) := by
  simp only [parse, htok, hfind]
  rw [if_pos hsub]

theorem parse_eval_sub (reg : List CommandDefinition) (s : String)
    (cmd sub : List Char) (rest2 : List (List Char))
    (d : CommandDefinition) (sc : List Char)
    (htok : tokenize s.data = cmd :: sub :: rest2)
    (hfind : reg.find? (fun e => lower e.name = lower cmd) = some d)
    (hsub : ¬ d.subcommands = [])
    (hsf : d.subcommands.find? (fun x => lower x = lower sub) = some sc) :
    parse reg s =
      (bindSpecs (reservedOf d.argumentSpecs) d.argumentSpecs rest2).map
        (fun m => ⟨d.name, some sc, m⟩) := by
  simp only [parse, htok, hfind]
  rw [if_neg hsub]
  simp only [hsf]

/-- Claim C9: for every input that parses to a CommandRequest, rendering
the request's augments to their canonical textual form and re-tokenizing
and re-parsing yields an equal CommandRequest. -/
theorem c9_roundtrip (raw : String) (req : CommandRequest)
    (h : parse builtins raw = .ok req) :
    parse builtins (renderReq builtins req) = .ok req := by
  rcases htok : tokenize raw.data with _ | ⟨cmd, rest⟩
  · simp only [parse, htok] at h
    exact Except.noConfusion h
  have hgoodall : ∀ t ∈ cmd :: rest, GoodTok t := by
    rw [← htok]
    intro t ht
    exact tokAux_good raw.data [] (by simp) t ht
  have hgood : ∀ t ∈ rest, GoodTok t := fun t ht =>
    hgoodall t (List.mem_cons_of_mem cmd ht)
  rcases hfind : builtins.find? (fun e => lower e.name = lower cmd)
    with _ | d
  · have hpe : parse builtins raw = .error .UnknownCommand := by
      simp only [parse, htok, hfind]
    rw [hpe] at h
    exact Except.noConfusion h
  have hd := List.mem_of_find?_eq_some hfind
  simp only [builtins, builtinDefs, List.mem_cons, List.not_mem_nil,
    or_false] at hd
  rcases hd with rfl | rfl | rfl | rfl | rfl | rfl | rfl | rfl | rfl
  · -- get
    rw [parse_eval builtins raw cmd rest getDef htok hfind rfl] at h
    obtain ⟨m, hbm, rfl⟩ := exceptMap_ok _ _ _ h
    rw [show getDef.argumentSpecs = [queryArg] from rfl] at hbm
    obtain ⟨q, rfl, hrender, hgq, hrebind⟩ :=
      rebindQuerySpecs _ rest m hgood hbm
    have hrr : renderReq builtins
        ⟨getDef.name, none, [("query".data, Value.query q)]⟩ =
        String.mk (joinTokens "get".data
          (renderAugments [queryArg] [("query".data, Value.query q)])) := rfl
    rw [hrr, hrender]
    have htok2 : tokenize (String.mk
        (joinTokens "get".data [renderQ q])).data =
        "get".data :: [renderQ q] :=
      tokenize_render _ _ ⟨by decide, by decide⟩
        (by intro t ht; rw [List.mem_singleton.mp ht]; exact hgq)
    have hfind2 : builtins.find?
        (fun e => lower e.name = lower "get".data) = some getDef := rfl
    rw [parse_eval builtins _ "get".data [renderQ q] getDef htok2 hfind2 rfl]
    rw [show getDef.argumentSpecs = [queryArg] from rfl]
    rw [hrebind]
    rfl
  · -- describe
    rw [parse_eval builtins raw cmd rest describeDef htok hfind rfl] at h
    obtain ⟨m, hbm, rfl⟩ := exceptMap_ok _ _ _ h
    rw [show describeDef.argumentSpecs = [queryArg] from rfl] at hbm
    obtain ⟨q, rfl, hrender, hgq, hrebind⟩ :=
      rebindQuerySpecs _ rest m hgood hbm
    have hrr : renderReq builtins
        ⟨describeDef.name, none, [("query".data, Value.query q)]⟩ =
        String.mk (joinTokens "describe".data
          (renderAugments [queryArg] [("query".data, Value.query q)])) := rfl
    rw [hrr, hrender]
    have htok2 : tokenize (String.mk
        (joinTokens "describe".data [renderQ q])).data =
        "describe".data :: [renderQ q] :=
      tokenize_render _ _ ⟨by decide, by decide⟩
        (by intro t ht; rw [List.mem_singleton.mp ht]; exact hgq)
    have hfind2 : builtins.find?
        (fun e => lower e.name = lower "describe".data) =
        some describeDef := rfl
    rw [parse_eval builtins _ "describe".data [renderQ q] describeDef htok2
      hfind2 rfl]
    rw [show describeDef.argumentSpecs = [queryArg] from rfl]
    rw [hrebind]
    rfl
  · -- rollout
    rcases rest with _ | ⟨sub, rest2⟩
    · have hpe : parse builtins raw = .error .UnknownSubcommand := by
        simp only [parse, htok, hfind]
        rw [if_neg (by decide)]
      rw [hpe] at h
      exact Except.noConfusion h
    have hgood2 : ∀ t ∈ rest2, GoodTok t := fun t ht =>
      hgood t (List.mem_cons_of_mem sub ht)
    rcases hsf : rolloutDef.subcommands.find?
        (fun x => lower x = lower sub) with _ | sc
    · have hpe : parse builtins raw = .error .UnknownSubcommand := by
        simp only [parse, htok, hfind]
        rw [if_neg (by decide)]
        simp only [hsf]
      rw [hpe] at h
      exact Except.noConfusion h
    rw [parse_eval_sub builtins raw cmd sub rest2 rolloutDef sc htok hfind
      (by decide) hsf] at h
    obtain ⟨m, hbm, rfl⟩ := exceptMap_ok _ _ _ h
    rw [show rolloutDef.argumentSpecs = [queryArg] from rfl] at hbm
    obtain ⟨q, rfl, hrender, hgq, hrebind⟩ :=
      rebindQuerySpecs _ rest2 m hgood2 hbm
    have hgsc : GoodTok sc := by
      have hsc := List.mem_of_find?_eq_some hsf
      simp only [rolloutDef, List.mem_cons, List.not_mem_nil, or_false]
        at hsc
      rcases hsc with rfl | rfl | rfl | rfl | rfl <;>
        exact ⟨by decide, by decide⟩
    have hsf2 : rolloutDef.subcommands.find?
        (fun x => lower x = lower sc) = some sc := by
      have hsc := List.mem_of_find?_eq_some hsf
      simp only [rolloutDef, List.mem_cons, List.not_mem_nil, or_false]
        at hsc
      rcases hsc with rfl | rfl | rfl | rfl | rfl <;> decide
    have hrr : renderReq builtins
        ⟨rolloutDef.name, some sc, [("query".data, Value.query q)]⟩ =
        String.mk (joinTokens "rollout".data
          ([sc] ++
            renderAugments [queryArg] [("query".data, Value.query q)])) :=
      rfl
    rw [hrr, hrender]
    rw [show ([sc] ++ [renderQ q] : List (List Char)) = [sc, renderQ q]
      from rfl]
    have htok2 : tokenize (String.mk
        (joinTokens "rollout".data [sc, renderQ q])).data =
        "rollout".data :: sc :: [renderQ q] :=
      tokenize_render _ _ ⟨by decide, by decide⟩
        (by
          intro t ht
          rcases List.mem_cons.mp ht with rfl | ht
          · exact hgsc
          · rw [List.mem_singleton.mp ht]; exact hgq)
    have hfind2 : builtins.find?
        (fun e => lower e.name = lower "rollout".data) =
        some rolloutDef := rfl
    rw [parse_eval_sub builtins _ "rollout".data sc [renderQ q] rolloutDef sc
      htok2 hfind2 (by decide) hsf2]
    rw [show rolloutDef.argumentSpecs = [queryArg] from rfl]
    rw [hrebind]
    rfl
  · -- scale
    rw [parse_eval builtins raw cmd rest scaleDef htok hfind rfl] at h
    obtain ⟨m, hbm, rfl⟩ := exceptMap_ok _ _ _ h
    rw [show scaleDef.argumentSpecs =
      [queryArg, ⟨"replicas".data, .posRequired⟩] from rfl] at hbm
    obtain ⟨q, r, rfl, hrender, hgq, hgr, hrebind⟩ :=
      rebindScaleSpecs _ rest m hgood hbm
    have hrr : renderReq builtins
        ⟨scaleDef.name, none,
          [("query".data, Value.query q), ("replicas".data, Value.str r)]⟩ =
        String.mk (joinTokens "scale".data
          (renderAugments [queryArg, ⟨"replicas".data, .posRequired⟩]
            [("query".data, Value.query q),
             ("replicas".data, Value.str r)])) := rfl
    rw [hrr, hrender]
    have htok2 : tokenize (String.mk
        (joinTokens "scale".data [renderQ q, r])).data =
        "scale".data :: [renderQ q, r] :=
      tokenize_render _ _ ⟨by decide, by decide⟩
        (by
          intro t ht
          rcases List.mem_cons.mp ht with rfl | ht
          · exact hgq
          · rw [List.mem_singleton.mp ht]; exact hgr)
    have hfind2 : builtins.find?
        (fun e => lower e.name = lower "scale".data) = some scaleDef := rfl
    rw [parse_eval builtins _ "scale".data [renderQ q, r] scaleDef htok2
      hfind2 rfl]
    rw [show scaleDef.argumentSpecs =
      [queryArg, ⟨"replicas".data, .posRequired⟩] from rfl]
    rw [hrebind]
    rfl
  · -- logs
    rw [parse_eval builtins raw cmd rest logsDef htok hfind rfl] at h
    obtain ⟨m, hbm, rfl⟩ := exceptMap_ok _ _ _ h
    rw [show logsDef.argumentSpecs =
      [queryArg,
       ⟨"direction".data, .keywordEnum [kw "top", kw "bottom"] "bottom".data⟩,
       ⟨"lines".data, .posOptValidated isPosInt "25".data⟩] from rfl] at hbm
    obtain ⟨q, dv, lv, rfl, hrender, hgq, hgdv, hglv, hrebind⟩ :=
      rebindLogsSpecs _ rest m hgood hbm
    have hrr : renderReq builtins
        ⟨logsDef.name, none,
          [("query".data, Value.query q), ("direction".data, Value.str dv),
           ("lines".data, Value.str lv)]⟩ =
        String.mk (joinTokens "logs".data
          (renderAugments
            [queryArg,
             ⟨"direction".data,
               .keywordEnum [kw "top", kw "bottom"] "bottom".data⟩,
             ⟨"lines".data, .posOptValidated isPosInt "25".data⟩]
            [("query".data, Value.query q), ("direction".data, Value.str dv),
             ("lines".data, Value.str lv)])) := rfl
    rw [hrr, hrender]
    have htok2 : tokenize (String.mk
        (joinTokens "logs".data [renderQ q, dv, lv])).data =
        "logs".data :: [renderQ q, dv, lv] :=
      tokenize_render _ _ ⟨by decide, by decide⟩
        (by
          intro t ht
          rcases List.mem_cons.mp ht with rfl | ht
          · exact hgq
          · rcases List.mem_cons.mp ht with rfl | ht
            · exact hgdv
            · rw [List.mem_singleton.mp ht]; exact hglv)
    have hfind2 : builtins.find?
        (fun e => lower e.name = lower "logs".data) = some logsDef := rfl
    rw [parse_eval builtins _ "logs".data [renderQ q, dv, lv] logsDef htok2
      hfind2 rfl]
    rw [show logsDef.argumentSpecs =
      [queryArg,
       ⟨"direction".data, .keywordEnum [kw "top", kw "bottom"] "bottom".data⟩,
       ⟨"lines".data, .posOptValidated isPosInt "25".data⟩] from rfl]
    rw [hrebind]
    rfl
  · -- version
    rw [parse_eval builtins raw cmd rest versionDef htok hfind rfl] at h
    obtain ⟨m, hbm, rfl⟩ := exceptMap_ok _ _ _ h
    rw [show versionDef.argumentSpecs = ([] : List ArgumentSpec) from rfl]
      at hbm
    have hm : m = [] ∧ rest = [] := by
      simp only [bindSpecs] at hbm
      split at hbm
      · rename_i hrest
        exact ⟨(Except.ok.inj hbm).symm, hrest⟩
      · exact Except.noConfusion hbm
    obtain ⟨rfl, rfl⟩ := hm
    have hrr : renderReq builtins ⟨versionDef.name, none, []⟩ =
        String.mk (joinTokens "version".data []) := rfl
    rw [hrr]
    have htok2 : tokenize (String.mk
        (joinTokens "version".data [])).data = "version".data :: [] :=
      tokenize_single _ ⟨by decide, by decide⟩
    have hfind2 : builtins.find?
        (fun e => lower e.name = lower "version".data) =
        some versionDef := rfl
    rw [parse_eval builtins _ "version".data [] versionDef htok2 hfind2 rfl]
    rfl
  · -- track
    rw [parse_eval builtins raw cmd rest trackDef htok hfind rfl] at h
    obtain ⟨m, hbm, rfl⟩ := exceptMap_ok _ _ _ h
    rw [show trackDef.argumentSpecs =
      [⟨"repo".data, .posRequired⟩,
       ⟨"channels".data, .listTokens ['#']⟩,
       ⟨"author_filter".data,
         .keywordEnum [kw "anyones", kw "mine", kw "none"] "mine".data⟩,
       ⟨"result_filter".data,
         .keywordEnum [kw "all", kw "failure", kw "success"] "all".data⟩,
       ⟨"branches".data, .listTokens []⟩] from rfl] at hbm
    rw [show reservedOf
      [⟨"repo".data, .posRequired⟩,
       ⟨"channels".data, .listTokens ['#']⟩,
       ⟨"author_filter".data,
         .keywordEnum [kw "anyones", kw "mine", kw "none"] "mine".data⟩,
       ⟨"result_filter".data,
         .keywordEnum [kw "all", kw "failure", kw "success"] "all".data⟩,
       ⟨"branches".data, .listTokens []⟩] =
      ["anyones".data, "mine".data, "none".data,
       "all".data, "failure".data, "success".data] from rfl] at hbm
    obtain ⟨r, cs, a, f, bs, rfl, hrender, hgoodtoks, hrebind⟩ :=
      rebindTrackSpecs rest m hgood hbm
    have hrr : renderReq builtins
        ⟨trackDef.name, none,
          [("repo".data, Value.str r), ("channels".data, Value.list cs),
           ("author_filter".data, Value.str a),
           ("result_filter".data, Value.str f),
           ("branches".data, Value.list bs)]⟩ =
        String.mk (joinTokens "track".data
          (renderAugments
            [⟨"repo".data, .posRequired⟩,
             ⟨"channels".data, .listTokens ['#']⟩,
             ⟨"author_filter".data,
               .keywordEnum [kw "anyones", kw "mine", kw "none"] "mine".data⟩,
             ⟨"result_filter".data,
               .keywordEnum [kw "all", kw "failure", kw "success"] "all".data⟩,
             ⟨"branches".data, .listTokens []⟩]
            [("repo".data, Value.str r), ("channels".data, Value.list cs),
             ("author_filter".data, Value.str a),
             ("result_filter".data, Value.str f),
             ("branches".data, Value.list bs)])) := rfl
    rw [hrr, hrender]
    have htok2 : tokenize (String.mk
        (joinTokens "track".data
          (r :: (cs.map (fun x => '#' :: x) ++ a :: f :: bs)))).data =
        "track".data :: (r :: (cs.map (fun x => '#' :: x) ++ a :: f :: bs)) :=
      tokenize_render _ _ ⟨by decide, by decide⟩ hgoodtoks
    have hfind2 : builtins.find?
        (fun e => lower e.name = lower "track".data) = some trackDef := rfl
    rw [parse_eval builtins _ "track".data
      (r :: (cs.map (fun x => '#' :: x) ++ a :: f :: bs)) trackDef htok2
      hfind2 rfl]
    rw [show trackDef.argumentSpecs =
      [⟨"repo".data, .posRequired⟩,
       ⟨"channels".data, .listTokens ['#']⟩,
       ⟨"author_filter".data,
         .keywordEnum [kw "anyones", kw "mine", kw "none"] "mine".data⟩,
       ⟨"result_filter".data,
         .keywordEnum [kw "all", kw "failure", kw "success"] "all".data⟩,
       ⟨"branches".data, .listTokens []⟩] from rfl]
    rw [show reservedOf
      [⟨"repo".data, .posRequired⟩,
       ⟨"channels".data, .listTokens ['#']⟩,
       ⟨"author_filter".data,
         .keywordEnum [kw "anyones", kw "mine", kw "none"] "mine".data⟩,
       ⟨"result_filter".data,
         .keywordEnum [kw "all", kw "failure", kw "success"] "all".data⟩,
       ⟨"branches".data, .listTokens []⟩] =
      ["anyones".data, "mine".data, "none".data,
       "all".data, "failure".data, "success".data] from rfl]
    rw [hrebind]
    rfl
  · -- config
    rw [parse_eval builtins raw cmd rest configDef htok hfind rfl] at h
    obtain ⟨m, hbm, rfl⟩ := exceptMap_ok _ _ _ h
    rw [show configDef.argumentSpecs =
      [⟨"key".data, .posOptValidated (fun _ => true) []⟩,
       ⟨"value".data, .posOptValidated (fun _ => true) []⟩] from rfl] at hbm
    obtain ⟨k, v, rfl, hgoodtoks, hrebind⟩ :=
      rebindConfigSpecs _ rest m hgood hbm
    have hrr : renderReq builtins
        ⟨configDef.name, none,
          [("key".data, Value.str k), ("value".data, Value.str v)]⟩ =
        String.mk (joinTokens "config".data
          (renderAugments
            [⟨"key".data, .posOptValidated (fun _ => true) []⟩,
             ⟨"value".data, .posOptValidated (fun _ => true) []⟩]
            [("key".data, Value.str k), ("value".data, Value.str v)])) := rfl
    rw [hrr]
    have htok2 : tokenize (String.mk
        (joinTokens "config".data
          (renderAugments
            [⟨"key".data, .posOptValidated (fun _ => true) []⟩,
             ⟨"value".data, .posOptValidated (fun _ => true) []⟩]
            [("key".data, Value.str k), ("value".data, Value.str v)]))).data =
        "config".data ::
          renderAugments
            [⟨"key".data, .posOptValidated (fun _ => true) []⟩,
             ⟨"value".data, .posOptValidated (fun _ => true) []⟩]
            [("key".data, Value.str k), ("value".data, Value.str v)] :=
      tokenize_render _ _ ⟨by decide, by decide⟩ hgoodtoks
    have hfind2 : builtins.find?
        (fun e => lower e.name = lower "config".data) = some configDef := rfl
    rw [parse_eval builtins _ "config".data
      (renderAugments
        [⟨"key".data, .posOptValidated (fun _ => true) []⟩,
         ⟨"value".data, .posOptValidated (fun _ => true) []⟩]
        [("key".data, Value.str k), ("value".data, Value.str v)]) configDef
      htok2 hfind2 rfl]
    rw [show configDef.argumentSpecs =
      [⟨"key".data, .posOptValidated (fun _ => true) []⟩,
       ⟨"value".data, .posOptValidated (fun _ => true) []⟩] from rfl]
    rw [hrebind]
    rfl
  · -- help
    rw [parse_eval builtins raw cmd rest helpDef htok hfind rfl] at h
    obtain ⟨m, hbm, rfl⟩ := exceptMap_ok _ _ _ h
    rw [show helpDef.argumentSpecs = ([] : List ArgumentSpec) from rfl]
      at hbm
    have hm : m = [] ∧ rest = [] := by
      simp only [bindSpecs] at hbm
      split at hbm
      · rename_i hrest
        exact ⟨(Except.ok.inj hbm).symm, hrest⟩
      · exact Except.noConfusion hbm
    obtain ⟨rfl, rfl⟩ := hm
    have hrr : renderReq builtins ⟨helpDef.name, none, []⟩ =
        String.mk (joinTokens "help".data []) := rfl
    rw [hrr]
    have htok2 : tokenize (String.mk
        (joinTokens "help".data [])).data = "help".data :: [] :=
      tokenize_single _ ⟨by decide, by decide⟩
    have hfind2 : builtins.find?
        (fun e => lower e.name = lower "help".data) = some helpDef := rfl
    rw [parse_eval builtins _ "help".data [] helpDef htok2 hfind2 rfl]
    rfl

/-- Witness for C9 at a concrete input: re-parsing the canonical form of
the request parsed from `rollout status deployment/myapp/3` returns the
same request. -/
theorem c9_roundtrip_witness :
    parse builtins (renderReq builtins
      ⟨"rollout".data, some "status".data,
        [("query".data, .query
          ⟨"deployment".data, "myapp".data, some "3".data⟩)]⟩) =
      .ok ⟨"rollout".data, some "status".data,
        [("query".data, .query
          ⟨"deployment".data, "myapp".data, some "3".data⟩)]⟩ :=
  c9_roundtrip "rollout status deployment/myapp/3" _ rfl

end KubeBot

-- Concrete evaluations of the spec's test vectors.
example : KubeBot.tokenize "  get  pods/x ".data = ["get".data, "pods/x".data] := by decide
example : KubeBot.parseQuery "pods/".data = .error .InvalidQuery := rfl
example : KubeBot.parseQuery "pods/myapp".data = .ok ⟨"pods".data, "myapp".data, none⟩ := rfl

open KubeBot in
example : parse builtins "get pods/myapp" =
    .ok ⟨"get".data, none, [("query".data, .query ⟨"pods".data, "myapp".data, none⟩)]⟩ := rfl

open KubeBot in
example : parse builtins "rollout status deployment/myapp/3" =
    .ok ⟨"rollout".data, some "status".data,
      [("query".data, .query ⟨"deployment".data, "myapp".data, some "3".data⟩)]⟩ := rfl

open KubeBot in
example : parse builtins "logs deployment/myapp top 50" =
    .ok ⟨"logs".data, none,
      [("query".data, .query ⟨"deployment".data, "myapp".data, none⟩),
       ("direction".data, .str "top".data),
       ("lines".data, .str "50".data)]⟩ := rfl

open KubeBot in
example : parse builtins "logs deployment/myapp" =
    .ok ⟨"logs".data, none,
      [("query".data, .query ⟨"deployment".data, "myapp".data, none⟩),
       ("direction".data, .str "bottom".data),
       ("lines".data, .str "25".data)]⟩ := rfl

open KubeBot in
example : parse builtins "track acme/widgets #ops #oncall mine failure develop master" =
    .ok ⟨"track".data, none,
      [("repo".data, .str "acme/widgets".data),
       ("channels".data, .list ["ops".data, "oncall".data]),
       ("author_filter".data, .str "mine".data),
       ("result_filter".data, .str "failure".data),
       ("branches".data, .list ["develop".data, "master".data])]⟩ := rfl

open KubeBot in
example : parse builtins "track acme/widgets mine none" = .error .DuplicateKeyword := rfl

open KubeBot in
example : parse builtins "   " = .error .EmptyMessage := rfl

open KubeBot in
example : parse builtins "GET pods/x" = parse builtins "get pods/x" := rfl

open KubeBot in
example : renderReq builtins ⟨"logs".data, none,
      [("query".data, .query ⟨"deployment".data, "myapp".data, none⟩),
       ("direction".data, .str "bottom".data),
       ("lines".data, .str "25".data)]⟩ = "logs deployment/myapp bottom 25" := rfl

open KubeBot in
example : loadAll = .ok builtins := rfl
